import Mathlib

/-
Verification of the graph-construction core in ford/graphs.py: the node
registry (GraphData and the per-kind node constructors) and the bounded
breadth-first graph builder (FortranGraph and its subclasses).

Modelling conventions:
* Python objects that reference each other cyclically are represented by
  string identifiers resolved through a total environment function.
* Python sets of nodes compare elements with BaseNode.__eq__, which
  compares the ident attribute only; we model such sets as lists kept
  free of duplicate idents by insert-if-absent.
* The colour string produced by rainbowcolour is a pure function of its
  two integer arguments (plus the global colour switch); since the RGB
  computation uses floating point, a colour is represented by the
  argument pair itself.
* Recursion that can diverge in Python (registry construction) takes an
  explicit fuel argument and returns an error when fuel runs out.
-/

namespace Ford

/-- Lexicographic comparison of character lists by code point; this is the
comparison Python applies to strings. -/
def charListLe : List Char → List Char → Bool
  | [], _ => true
  | _ :: _, [] => false
  | a :: as, b :: bs =>
    if a.toNat < b.toNat then true
    else if b.toNat < a.toNat then false
    else charListLe as bs

/-- Python string comparison a <= b. -/
def pyStrLe (a b : String) : Bool := charListLe a.data b.data

instance {e a : Type} [DecidableEq e] [DecidableEq a] : DecidableEq (Except e a) := fun x y =>
  match x, y with
  | .ok u, .ok v => if h : u = v then isTrue (by rw [h]) else isFalse (by simp [h])
  | .error u, .error v => if h : u = v then isTrue (by rw [h]) else isFalse (by simp [h])
  | .ok _, .error _ => isFalse (by simp)
  | .error _, .ok _ => isFalse (by simp)

/-- Membership test of a node ident in a list of idents (Python set membership). -/
def identMem (l : List String) (x : String) : Bool := l.contains x

/-- Set-style insert for a list of idents: models pythonSet.add, a no-op when present. -/
def identInsert (l : List String) (x : String) : List String :=
  if identMem l x then l else l ++ [x]

/-- Colour value returned by rainbowcolour. The source computes an RGB string
from (depth, maxd) with colorsys.hsv_to_rgb (floating point) or returns black
when edge colouring is off; the value is a pure function of the pair, which we
keep as the representation. -/
structure Colour where
  depth : Nat
  maxd : Nat
deriving DecidableEq, Repr

/-- Models rainbowcolour(depth, maxd). -/
def rainbowcolour (depth maxd : Nat) : Colour := ⟨depth, maxd⟩

/-- Graph node as seen by the bounded graph builder: the ident and name
attributes plus the relation sets (stored as idents) that the _add_node
implementations read. isProg records isinstance(node, ProgNode). -/
structure GNode where
  ident : String := ""
  name : String := ""
  isProg : Bool := false
  uses : List String := []
  usedBy : List String := []
  children : List String := []
  ancestor : Option String := none
  calls : List String := []
  calledBy : List String := []
  interfaces : List String := []
  interfacedBy : List String := []
deriving DecidableEq, Repr, Inhabited

/-- Environment resolving a node ident to its node (the registry contents,
read-only during graph building). -/
abbrev GEnv := String → GNode

/-- Node ordering used by BaseNode.__lt__: by ident (Python string order). -/
def nodeLe (a b : GNode) : Prop := pyStrLe a.ident b.ident = true

instance : DecidableRel nodeLe := fun a b =>
  inferInstanceAs (Decidable (pyStrLe a.ident b.ident = true))

/-- Models sorted(...) applied to a collection of nodes: sort by ident
(BaseNode.__lt__). Python sorted is a stable comparison sort; on the node
sets arising here idents are pairwise distinct, so any sort agrees. -/
def sortNodes (l : List GNode) : List GNode := List.insertionSort nodeLe l

/-- Membership of a node in a Python set of nodes (BaseNode.__eq__ compares idents). -/
def nodeMem (l : List GNode) (n : GNode) : Bool := l.any fun m => m.ident == n.ident

/-- Set-style insert into a Python set of nodes. -/
def nodeInsert (l : List GNode) (n : GNode) : List GNode :=
  if nodeMem l n then l else l ++ [n]

/-- Set-style union: pythonSet.update(nodes). -/
def nodeUnion (l : List GNode) (ns : List GNode) : List GNode := ns.foldl nodeInsert l

/-- Materialise a stored relation set (idents) as the sorted list of nodes that
the loops "for x in sorted(node.rel)" iterate over. -/
def relNodes (env : GEnv) (ids : List String) : List GNode :=
  sortNodes (ids.dedup.map env)

/-- Edge dictionary produced by the _edge helper: a Python dict with exactly
the five string keys tail_name, head_name, style, color, label. -/
structure Edge where
  tail_name : String
  head_name : String
  style : String
  color : Colour
  label : Option String
deriving DecidableEq, Repr

/-- Models _edge(tail, head, style, colour, label): stores the idents of the
two endpoint nodes. -/
def edgeMk (tail head : GNode) (style : String) (colour : Colour)
    (label : Option String := none) : Edge :=
  ⟨tail.ident, head.ident, style, colour, label⟩

/-- Models _solid_edge. -/
def solidEdge (tail head : GNode) (colour : Colour) (label : Option String := none) : Edge :=
  edgeMk tail head "solid" colour label

/-- Models _dashed_edge. -/
def dashedEdge (tail head : GNode) (colour : Colour) (label : Option String := none) : Edge :=
  edgeMk tail head "dashed" colour label

/-- Python dictionary key: either a string key or an integer key. -/
inductive PyKey where
  | str (s : String)
  | int (n : Nat)
deriving DecidableEq, Repr

/-- Python dictionary value appearing in an edge dict. -/
inductive PyVal where
  | s (v : String)
  | col (v : Colour)
  | none
deriving DecidableEq, Repr

/-- The dict literal built by _edge: all keys are strings. -/
def Edge.toDict (e : Edge) : List (PyKey × PyVal) :=
  [(.str "tail_name", .s e.tail_name),
   (.str "head_name", .s e.head_name),
   (.str "style", .s e.style),
   (.str "color", .col e.color),
   (.str "label", match e.label with | some l => .s l | Option.none => .none)]

/-- Python subscript d[k] on a dict: some value when the key is present,
none when the subscript would raise KeyError. -/
def pyGetItem (d : List (PyKey × PyVal)) (k : PyKey) : Option PyVal :=
  (d.find? fun p => p.1 == k).map (·.2)

/-- Graph variants relevant to the claims; each corresponds to a FortranGraph
subclass with its own _add_node. -/
inductive Variant where
  | moduleGraph
  | usesGraph
  | usedByGraph
  | callsGraph
  | calledByGraph
deriving DecidableEq, Repr

/-- Class attribute _should_add_nested_nodes of each variant. -/
def Variant.shouldAddNestedNodes : Variant → Bool
  | .moduleGraph => false
  | .usesGraph => true
  | .usedByGraph => true
  | .callsGraph => true
  | .calledByGraph => true

/-- Models the per-subclass _add_node(hop_nodes, hop_edges, node, colour):
returns the updated hop accumulators. added is self.added, read for the
"not in self.added" admission checks. -/
def addNode (env : GEnv) (v : Variant) (added : List GNode)
    (hopN : List GNode) (hopE : List Edge) (node : GNode) (colour : Colour) :
    List GNode × List Edge :=
  match v with
  | .moduleGraph =>
      -- ModuleGraph._add_node: identical code to UsesGraph._add_node
      let step := fun (acc : List GNode × List Edge) (nu : GNode) =>
        let hN := if nodeMem added nu then acc.1 else nodeInsert acc.1 nu
        (hN, acc.2 ++ [dashedEdge node nu colour])
      let acc := (relNodes env node.uses).foldl step (hopN, hopE)
      match node.ancestor with
      | some ai =>
          let anc := env ai
          let hN := if nodeMem added anc then acc.1 else nodeInsert acc.1 anc
          (hN, acc.2 ++ [solidEdge node anc colour])
      | none => acc
  | .usesGraph =>
      let step := fun (acc : List GNode × List Edge) (nu : GNode) =>
        let hN := if nodeMem added nu then acc.1 else nodeInsert acc.1 nu
        (hN, acc.2 ++ [dashedEdge node nu colour])
      let acc := (relNodes env node.uses).foldl step (hopN, hopE)
      match node.ancestor with
      | some ai =>
          let anc := env ai
          let hN := if nodeMem added anc then acc.1 else nodeInsert acc.1 anc
          (hN, acc.2 ++ [solidEdge node anc colour])
      | none => acc
  | .usedByGraph =>
      let step := fun (acc : List GNode × List Edge) (nu : GNode) =>
        let hN := if nodeMem added nu then acc.1 else nodeInsert acc.1 nu
        (hN, acc.2 ++ [dashedEdge nu node colour])
      let acc := (relNodes env node.usedBy).foldl step (hopN, hopE)
      let step2 := fun (acc : List GNode × List Edge) (c : GNode) =>
        let hN := if nodeMem added c then acc.1 else nodeInsert acc.1 c
        (hN, acc.2 ++ [solidEdge c node colour])
      (relNodes env node.children).foldl step2 acc
  | .callsGraph =>
      let step := fun (acc : List GNode × List Edge) (p : GNode) =>
        let hN := if nodeMem added p then acc.1 else nodeInsert acc.1 p
        (hN, acc.2 ++ [solidEdge node p colour])
      let acc := (relNodes env node.calls).foldl step (hopN, hopE)
      let step2 := fun (acc : List GNode × List Edge) (p : GNode) =>
        let hN := if nodeMem added p then acc.1 else nodeInsert acc.1 p
        (hN, acc.2 ++ [dashedEdge node p colour])
      (relNodes env node.interfaces).foldl step2 acc
  | .calledByGraph =>
      -- CalledByGraph._add_node returns immediately for ProgNode instances
      if node.isProg then (hopN, hopE)
      else
        let step := fun (acc : List GNode × List Edge) (p : GNode) =>
          let hN := if nodeMem added p then acc.1 else nodeInsert acc.1 p
          (hN, acc.2 ++ [solidEdge p node colour])
        let acc := (relNodes env node.calledBy).foldl step (hopN, hopE)
        let step2 := fun (acc : List GNode × List Edge) (p : GNode) =>
          let hN := if nodeMem added p then acc.1 else nodeInsert acc.1 p
          (hN, acc.2 ++ [dashedEdge p node colour])
        (relNodes env node.interfacedBy).foldl step2 acc

/-- Limits resolved in FortranGraph.__init__ as maxima over the roots. -/
structure Cfg where
  maxNesting : Nat := 0
  maxNodes : Nat := 1
  warn : Bool := false
deriving DecidableEq, Repr

/-- Mutable state of a FortranGraph during construction: the added set, the
retained overflow hop, the truncation marker and the node/edge sequences
emitted to the dot object. admitLog is a ghost field recording, for each
successful add_to_graph call, the hop number and how many nodes it admitted;
it is written exactly where dot emission happens and read by no definition. -/
structure GraphState where
  added : List GNode := []
  hopNodes : List GNode := []
  hopEdges : List Edge := []
  truncated : Int := -1
  dotNodes : List String := []
  dotEdges : List Edge := []
  admitLog : List (Nat × Nat) := []
deriving DecidableEq, Repr

/-- Models FortranGraph.add_to_graph(nodes, edges, nesting): admits the hop
only when it fits under max_nodes, otherwise retains it (first hop only) and
marks truncation. Returns (was the graph extended, new state). -/
def add_to_graph (cfg : Cfg) (st : GraphState) (nodes : List GNode)
    (edges : List Edge) (nesting : Nat) : Bool × GraphState :=
  if nodes.length + st.added.length > cfg.maxNodes then
    let st := if nesting < 2 then { st with hopNodes := nodes, hopEdges := edges } else st
    (false, { st with truncated := (nesting : Int) })
  else
    (true,
      { st with
        dotNodes := st.dotNodes ++ (sortNodes nodes).map (·.ident)
        dotEdges := st.dotEdges ++ edges
        added := nodeUnion st.added nodes
        admitLog := st.admitLog ++ [(nesting, nodes.length)] })

/-- Accumulation loop at the top of add_nodes: iterate over enumerate(sorted(nodes)),
give each node the rainbow colour for its index, and let _add_node extend the
hop accumulators. -/
def hopAccum (env : GEnv) (v : Variant) (added : List GNode) (nodes : List GNode) :
    List GNode × List Edge :=
  ((sortNodes nodes).enum).foldl
    (fun acc p => addNode env v added acc.1 acc.2 p.2 (rainbowcolour p.1 nodes.length))
    ([], [])

/-- State produced when add_to_graph admits a hop. -/
def admitState (st : GraphState) (nodes : List GNode) (edges : List Edge)
    (nesting : Nat) : GraphState :=
  { st with
    dotNodes := st.dotNodes ++ (sortNodes nodes).map (·.ident)
    dotEdges := st.dotEdges ++ edges
    added := nodeUnion st.added nodes
    admitLog := st.admitLog ++ [(nesting, nodes.length)] }

/-- State produced when add_to_graph rejects a hop. -/
def rejectState (st : GraphState) (nodes : List GNode) (edges : List Edge)
    (nesting : Nat) : GraphState :=
  { (if nesting < 2 then { st with hopNodes := nodes, hopEdges := edges } else st) with
    truncated := (nesting : Int) }

/-- Recursion worker for add_nodes. The recursion in the source descends on
nesting, bounded above by cfg.maxNesting; gas is the structural measure
cfg.maxNesting - nesting supplied by the wrapper, so the zero branch of the
match is unreachable (theorem add_nodes_unfold below recovers the exact
source-shaped recursion). -/
def add_nodes_gas (env : GEnv) (v : Variant) (cfg : Cfg) (gas : Nat) (st : GraphState)
    (nodes : List GNode) (nesting : Nat) : GraphState :=
    match add_to_graph cfg st (hopAccum env v st.added nodes).1
        (hopAccum env v st.added nodes).2 nesting with
    | (false, st2) => st2
    | (true, st2) =>
      if v.shouldAddNestedNodes then
        -- _add_nested_nodes(hop_nodes, nesting)
        if (hopAccum env v st.added nodes).1.length = 0 then st2
        else if nesting < cfg.maxNesting then
          match gas with
          | gas' + 1 =>
              add_nodes_gas env v cfg gas' st2 (hopAccum env v st.added nodes).1 (nesting + 1)
          | 0 => st2
        else { st2 with truncated := (nesting : Int) }
      else st2

/-- Models FortranGraph.add_nodes(nodes, nesting) together with
_add_nested_nodes: build the hop, try to admit it, and when the variant
expands transitively recurse on the new nodes until the depth limit,
marking truncation when the limit is reached with a non-empty hop. -/
def add_nodes (env : GEnv) (v : Variant) (cfg : Cfg) (st : GraphState)
    (nodes : List GNode) (nesting : Nat) : GraphState :=
  add_nodes_gas env v cfg (cfg.maxNesting - nesting) st nodes nesting

/-- Per-root metadata read in FortranGraph.__init__ from r.meta and r.settings. -/
structure RootMeta where
  graph_maxdepth : Nat := 0
  graph_maxnodes : Nat := 1
  warn : Bool := false
deriving DecidableEq, Repr

/-- Root ordering used by "for r in sorted(root)". The entity comparison lives
in ford.sourceform (outside the analysed file); per the spec, nodes order by
their identity key, so roots are sorted by node ident. -/
def sortRoots (roots : List (GNode × RootMeta)) : List (GNode × RootMeta) :=
  List.insertionSort (fun a b => pyStrLe a.1.ident b.1.ident = true) roots

/-- Limit resolution loop of FortranGraph.__init__: starting from the initial
attribute values (max_nesting 0, max_nodes 1, warn False), take maxima of the
per-root limits and or together the warn flags. -/
def cfgOf (roots : List (GNode × RootMeta)) : Cfg :=
  (sortRoots roots).foldl
    (fun c p =>
      { maxNesting := max c.maxNesting p.2.graph_maxdepth
        maxNodes := max c.maxNodes p.2.graph_maxnodes
        warn := c.warn || p.2.warn })
    {}

/-- Root admission loop of FortranGraph.__init__: every root node is drawn and
added to the added set unconditionally, before any budget check. -/
def initialState (rootNodes : List GNode) : GraphState :=
  { added := rootNodes.foldl nodeInsert []
    dotNodes := rootNodes.map (·.ident) }

/-- A fully constructed FortranGraph: roots, resolved limits, final state, and
the svg payload returned by the external renderer (empty when graphviz is not
installed). -/
structure BuiltGraph where
  roots : List GNode
  cfg : Cfg
  st : GraphState
  svgSrc : String := ""
deriving DecidableEq, Repr

/-- Models FortranGraph.__init__: sort the roots, resolve the limits, add the
roots to the graph, then run add_nodes(self.root) starting at hop 1. -/
def buildGraph (env : GEnv) (v : Variant) (roots : List (GNode × RootMeta))
    (svgSrc : String := "") : BuiltGraph :=
  let rootNodes := (sortRoots roots).map (·.1)
  let cfg := cfgOf roots
  { roots := rootNodes
    cfg := cfg
    st := add_nodes env v cfg (initialState rootNodes) rootNodes 1
    svgSrc := svgSrc }

/-- Python exception outcomes of FortranGraph.__str__. -/
inductive PyErr where
  | keyError (k : String)
  | indexError
deriving DecidableEq, Repr

/-- Condition graph_as_table computed at the top of FortranGraph.__str__. -/
def graphAsTable (g : BuiltGraph) : Bool :=
  decide (g.st.hopNodes.length > 0) && decide (g.roots.length = 1)

/-- Fixed non-empty legend/help block appended to every rendered graph
(legend_graph in __str__); the HTML body is abbreviated, only non-emptiness
matters to the analysed behaviour. -/
def legendGraph : String := "<div><a class=graph-help>Help</a>...</div>"

/-- Models FortranGraph.__str__. Empty graphs are suppressed; oversized and
incomplete graphs are suppressed only when self.warn is set; a single-root
graph with retained overflow data takes the table branch, whose first
statement subscripts an edge dict with the integer 0 and therefore raises
KeyError (edge dicts only carry string keys); otherwise the svg is wrapped
in a div. HTML text is abbreviated but empty versus non-empty is preserved. -/
def strRepr (g : BuiltGraph) : Except PyErr String :=
  if g.st.added.length ≤ 1 ∧ graphAsTable g = false then .ok ""
  else if g.st.added.length > g.cfg.maxNodes ∧ g.cfg.warn = true then .ok ""
  else if g.st.added.length < g.roots.length ∧ g.cfg.warn = true then .ok ""
  else
    -- when truncated > 0 and warn, only a warning is emitted; no output change
    if graphAsTable g = true then
      -- table branch: the root cell is formatted, then the code evaluates
      -- self.hop_edges[0][0].ident
      match g.st.hopEdges with
      | [] => .error .indexError
      | e :: _ =>
          match pyGetItem e.toDict (.int 0) with
          | Option.none => .error (.keyError "0")
          | some _ =>
              -- unreachable: edge dicts have no integer keys; the rest of the
              -- table rendering is not modelled
              .ok "<table></table>"
    else
      .ok ("<div class=depgraph>" ++ g.svgSrc ++ "</div>" ++ legendGraph)

/-! Registry layer: GraphData and the per-kind node constructors. Entities of
the parsed corpus live outside graphs.py (in ford.sourceform); they are
modelled as records addressed by an identifier through a total environment,
with relation lists referring to other entities by Target values. -/

/-- Entity kind as discriminated by the is_module, is_submodule, is_type,
is_proc, is_program, is_sourcefile and is_blockdata isinstance predicates.
The other constructor stands for any value matching none of them
(_get_collection_and_node_type raises BadType there); a FortranSubmodule also
satisfies is_module, and the source tests is_submodule first, which the
separate submodule constructor reflects. -/
inductive EKind where
  | module
  | submodule
  | typ
  | proc
  | program
  | sourcefile
  | blockdata
  | other (desc : String)
deriving DecidableEq, Repr

/-- Relation target as found in an entity's relation lists: an internal entity
(by identifier), an External* wrapper object carrying only a display string, or
a plain Python string. -/
inductive Target where
  | ref (id : String)
  | ext (k : EKind) (raw : String)
  | str (s : String)
deriving DecidableEq, Repr

/-- Local variable of a derived type, as read by TypeNode.__init__:
var.name, var.vartype and var.proto[0] (a "*" prototype is Target.str "*"). -/
structure LVar where
  name : String := ""
  vartype : String := ""
  proto1 : Target := .str "*"
deriving DecidableEq, Repr

/-- Program entity attributes read by graphs.py. Fields irrelevant to a given
kind keep their defaults. ifaceModule models the chain
hasattr(obj, "procedure") and obj.procedure.module and module is not True:
it is some target exactly when that chain reaches an entity. units lists the
identifiers of the program units defined in a source file; deplist and
hierRoot belong to such units (mod.deplist, dep.hierarchy[0]). -/
structure Entity where
  kind : EKind := .other "object"
  eid : String := ""
  name : String := ""
  dir : Option String := none
  visible : Bool := true
  externalUrl : Bool := false
  url : Option String := none
  uses : List Target := []
  calls : List Target := []
  extendsTarget : Option Target := none
  localVariables : List LVar := []
  proctype : String := ""
  modprocs : List (Option Target) := []
  ifaceModule : Option Target := none
  parentSubmodule : Option Target := none
  ancestorModule : Target := .str ""
  units : List String := []
  deplist : List String := []
  hierRoot : String := ""
deriving DecidableEq, Repr

/-- Environment resolving entity identifiers. -/
abbrev EEnv := String → Entity

/-- Collection chosen by _get_collection_and_node_type: one dict per kind on
the GraphData object. -/
inductive CTag where
  | submodules
  | modules
  | types
  | procedures
  | programs
  | sourcefiles
  | blockdata
deriving DecidableEq, Repr

/-- Registry error: BadType (with the offending type description) raised by
_get_collection_and_node_type, or exhaustion of the recursion fuel (Python
recurses without bound there). -/
inductive RErr where
  | badType (desc : String)
  | fuel
deriving DecidableEq, Repr

/-- Models _get_collection_and_node_type restricted to the collection choice:
the seven recognised kinds map to their dict, anything else raises BadType
with the message naming the unrecognised type. -/
def getCollectionTag : EKind → Except RErr CTag
  | .submodule => .ok .submodules
  | .module => .ok .modules
  | .typ => .ok .types
  | .proc => .ok .procedures
  | .program => .ok .programs
  | .sourcefile => .ok .sourcefiles
  | .blockdata => .ok .blockdata
  | .other desc => .error (.badType desc)

/-- Registry key: the dict a node lives in together with the key that the
Python dict lookup resolves. Internal entities key by their identifier;
external/string entities key by display name (the entity comparison lives in
ford.sourceform, outside src; the spec fixes identity as the composite key for
internal entities and the parsed display name for external ones, which is
what this key realises). -/
inductive RKey where
  | int (c : CTag) (id : String)
  | ext (c : CTag) (name : String)
deriving DecidableEq, Repr

/-- Index of the first occurrence of sep in l, character-list search. -/
def findSub (sep : List Char) : List Char → Option Nat
  | [] => if sep.isEmpty then some 0 else none
  | c :: t => if sep.isPrefixOf (c :: t) then some 0 else (findSub sep t).map (· + 1)

/-- Split a character list at the first occurrence of sep, dropping sep. -/
def splitOnceCL (sep l : List Char) : Option (List Char × List Char) :=
  match findSub sep l with
  | some i => some (l.take i, l.drop (i + sep.length))
  | none => none

/-- Whitespace trim on a character list (str.strip). -/
def trimCL (l : List Char) : List Char :=
  ((l.dropWhile Char.isWhitespace).reverse.dropWhile Char.isWhitespace).reverse

/-- Simplified recogniser for HYPERLINK_RE covering its common instance, a
string of the shape <a href="URL">NAME</a>: returns (url, name). Strings not
of this shape (in particular every string used in the theorems below) are not
hyperlinks. -/
def hyperlinkMatch (s : String) : Option (String × String) :=
  let d := s.data
  if ("<a href=\"".data.isPrefixOf d) && ("</a>".data.isSuffixOf d) then
    match splitOnceCL ("\">".data) (d.drop 9) with
    | some (u, t) => some (⟨u⟩, ⟨t.take (t.length - 4)⟩)
    | none => none
  else none

/-- Display name of an external/string entity: the hyperlink text when the
string matches HYPERLINK_RE, the raw string otherwise (BaseNode.__init__,
fromstr branch). -/
def extName (raw : String) : String :=
  match hyperlinkMatch raw with
  | some p => p.2
  | none => raw

/-- Registry key of a target: internal refs classify through their entity's
kind, External wrappers through their own kind; a plain string satisfies no
isinstance test and raises BadType. -/
def keyOf (env : EEnv) : Target → Except RErr RKey
  | .ref id => do
      let c ← getCollectionTag (env id).kind
      .ok (.int c id)
  | .ext k raw => do
      let c ← getCollectionTag k
      .ok (.ext c (extName raw))
  | .str _ => .error (.badType "str")

/-- Graph node held by the registry. Relation sets hold the ident attribute of
member nodes (Python sets deduplicate by BaseNode.__eq__, which compares
idents); ancestor holds a registry key so the source's mutations of
self.ancestor can be addressed. afferent/efferent are the integer counters of
ModNode and SubmodNode; FileNode rebinds those attributes to sets, modelled by
the separate afferentFiles/efferentFiles fields. -/
structure RNode where
  fromstr : Bool := false
  ident : String := ""
  name : String := ""
  url : Option String := none
  visible : Bool := true
  proctype : String := ""
  uses : List String := []
  usedBy : List String := []
  children : List String := []
  calls : List String := []
  calledBy : List String := []
  interfaces : List String := []
  interfacedBy : List String := []
  ancestor : Option RKey := none
  compTypes : List (String × String) := []
  compOf : List (String × String) := []
  afferent : Nat := 0
  efferent : Nat := 0
  afferentFiles : List String := []
  efferentFiles : List String := []
deriving DecidableEq, Repr, Inhabited

/-- Registry state: members lists the keys present in the GraphData dicts
(an entry is written only after its constructor returns), while heap holds
the node object for every key including nodes still under construction,
since related constructors mutate each other's attribute sets. -/
structure RegState where
  members : List RKey := []
  heap : List (RKey × RNode) := []
deriving DecidableEq, Repr

/-- Attribute read through a node reference. -/
def heapGet (st : RegState) (k : RKey) : RNode :=
  ((st.heap.find? fun p => p.1 == k).map (·.2)).getD {}

/-- Rebind the node object stored for a key. -/
def heapSet (st : RegState) (k : RKey) (n : RNode) : RegState :=
  if st.heap.any fun p => p.1 == k then
    { st with heap := st.heap.map fun p => if p.1 == k then (k, n) else p }
  else { st with heap := st.heap ++ [(k, n)] }

/-- Attribute mutation through a node reference. -/
def heapMod (st : RegState) (k : RKey) (f : RNode → RNode) : RegState :=
  heapSet st k (f (heapGet st k))

/-- Completion of register(): collection[obj] = node. -/
def addMember (st : RegState) (k : RKey) : RegState :=
  if k ∈ st.members then st else { st with members := st.members ++ [k] }

/-- Models getattr(target, "visible", default): internal entities carry the
visibility flag; plain strings have no such attribute; External wrapper
objects live in ford.sourceform (outside src) and per the spec carry no
relation data beyond a name, hence no visible attribute either. -/
def targetVisible (env : EEnv) (dflt : Bool) : Target → Bool
  | .ref i => (env i).visible
  | .str _ => dflt
  | .ext _ _ => dflt

/-- Lower-casing by code points (str.lower for the ASCII names involved). -/
def pyLower (s : String) : String := ⟨s.data.map Char.toLower⟩

/-- Label-map update for comp_of/comp_types: append ", name" under an existing
key, create the entry otherwise. -/
def labelAdd (m : List (String × String)) (k v : String) : List (String × String) :=
  if m.any fun p => p.1 == k then
    m.map fun p => if p.1 == k then (p.1, p.2 ++ ", " ++ v) else p
  else m ++ [(k, v)]

/-- BaseNode.__init__ for a string/External entity: parse an embedded
hyperlink, the ident is the display name. -/
def baseFromStr (raw : String) : RNode :=
  match hyperlinkMatch raw with
  | some p => { fromstr := true, ident := p.2, name := p.2, url := some p.1 }
  | none => { fromstr := true, ident := raw, name := raw, url := none }

/-- Name transformation applied by BaseNode.__init__ when EM_RE finds an
em-span in the name; modelled for names containing one such span. -/
def emName (n : String) : String :=
  match splitOnceCL "<em>".data n.data with
  | some (_, rest) =>
      match splitOnceCL "</em>".data rest with
      | some (inner, _) => "<<i>" ++ (⟨trimCL inner⟩ : String) ++ "</i>>"
      | none => n
  | none => n

/-- BaseNode.__init__ for an internal entity: ident is dir~ident with "none"
for a falsy directory, the name passes through the em rewrite. -/
def baseNodeInt (e : Entity) : RNode :=
  let d := match e.dir with
    | some s => if s = "" then "none" else s
    | none => "none"
  { ident := d ++ "~" ++ e.eid, name := emName e.name, url := e.url }

/-- Shape of the recursive registry lookup passed into the relation loops:
state, target and the hist mapping (identifiers of entities whose constructor
is on the current chain and chose to pass itself along). -/
abbrev GetFn := RegState → Target → List String → Except RErr (RegState × RKey)

/-- Relation loop of ModNode.__init__ (also inherited by SubmodNode): for u in
obj.uses: n = get_node(u); n.used_by.add(self); n.afferent += 1;
self.uses.add(n); self.efferent += n.efferent. -/
def modUsesLoop (g : GetFn) (selfK : RKey) : RegState → List Target → Except RErr RegState
  | st, [] => .ok st
  | st, u :: rest => do
      let r ← g st u []
      let st := r.1
      let nk := r.2
      let selfIdent := (heapGet st selfK).ident
      let nIdent := (heapGet st nk).ident
      let st := heapMod st nk fun n =>
        { n with usedBy := identInsert n.usedBy selfIdent, afferent := n.afferent + 1 }
      let nEff := (heapGet st nk).efferent
      let st := heapMod st selfK fun s =>
        { s with uses := identInsert s.uses nIdent, efferent := s.efferent + nEff }
      modUsesLoop g selfK st rest

/-- Relation loop of BlockNode.__init__ and the uses loop of ProcNode.__init__:
n.used_by.add(self); self.uses.add(n), without the counter updates. -/
def plainUsesLoop (g : GetFn) (selfK : RKey) : RegState → List Target → Except RErr RegState
  | st, [] => .ok st
  | st, u :: rest => do
      let r ← g st u []
      let st := r.1
      let nk := r.2
      let selfIdent := (heapGet st selfK).ident
      let nIdent := (heapGet st nk).ident
      let st := heapMod st nk fun n => { n with usedBy := identInsert n.usedBy selfIdent }
      let st := heapMod st selfK fun s => { s with uses := identInsert s.uses nIdent }
      plainUsesLoop g selfK st rest

/-- Uses loop of ProgNode.__init__: a plain string target is first wrapped as
ExternalModule(u); then n = get_node(usee); n.used_by.add(self);
self.uses.add(n). -/
def progUsesLoop (g : GetFn) (selfK : RKey) : RegState → List Target → Except RErr RegState
  | st, [] => .ok st
  | st, u :: rest => do
      let usee := match u with
        | .str s => Target.ext .module s
        | t => t
      let r ← g st usee []
      let st := r.1
      let nk := r.2
      let selfIdent := (heapGet st selfK).ident
      let nIdent := (heapGet st nk).ident
      let st := heapMod st nk fun n => { n with usedBy := identInsert n.usedBy selfIdent }
      let st := heapMod st selfK fun s => { s with uses := identInsert s.uses nIdent }
      progUsesLoop g selfK st rest

/-- Calls loop of ProgNode.__init__: targets failing getattr(c, "visible",
False) are skipped (a plain string has no visible attribute, so the wrap as
ExternalSubmodule(c) below is unreachable for strings); surviving targets are
looked up and recorded. -/
def progCallsLoop (env : EEnv) (g : GetFn) (selfK : RKey) :
    RegState → List Target → Except RErr RegState
  | st, [] => .ok st
  | st, c :: rest =>
      if targetVisible env false c = false then progCallsLoop env g selfK st rest
      else do
        let callee := match c with
          | .str s => Target.ext .submodule s
          | t => t
        let r ← g st callee []
        let st := r.1
        let nk := r.2
        let selfIdent := (heapGet st selfK).ident
        let nIdent := (heapGet st nk).ident
        let st := heapMod st nk fun n => { n with calledBy := identInsert n.calledBy selfIdent }
        let st := heapMod st selfK fun s => { s with calls := identInsert s.calls nIdent }
        progCallsLoop env g selfK st rest

/-- Calls loop of ProcNode.__init__: skip targets failing getattr(c,
"visible", True); a self-call resolves to the node itself; a target on the
hist chain resolves to its in-flight node; otherwise recurse passing
hist + self. -/
def procCallsLoop (env : EEnv) (g : GetFn) (selfK : RKey) (selfId : String)
    (hist : List String) : RegState → List Target → Except RErr RegState
  | st, [] => .ok st
  | st, c :: rest =>
      if targetVisible env true c = false then procCallsLoop env g selfK selfId hist st rest
      else do
        let r ← (
          if c = Target.ref selfId then .ok (st, selfK)
          else match c with
            | .ref i =>
                if i ∈ hist then do
                  let k ← keyOf env c
                  .ok (st, k)
                else g st c (selfId :: hist)
            | t => g st t (selfId :: hist))
        let st := r.1
        let nk := r.2
        let selfIdent := (heapGet st selfK).ident
        let nIdent := (heapGet st nk).ident
        let st := heapMod st nk fun n => { n with calledBy := identInsert n.calledBy selfIdent }
        let st := heapMod st selfK fun s => { s with calls := identInsert s.calls nIdent }
        procCallsLoop env g selfK selfId hist st rest

/-- Module-procedure loop of an interface ProcNode: entries with a falsy or
invisible procedure are skipped; n.interfaced_by.add(self);
self.interfaces.add(n). -/
def modprocsLoop (env : EEnv) (g : GetFn) (selfK : RKey) (selfId : String)
    (hist : List String) : RegState → List (Option Target) → Except RErr RegState
  | st, [] => .ok st
  | st, none :: rest => modprocsLoop env g selfK selfId hist st rest
  | st, some p :: rest =>
      if targetVisible env true p = false then modprocsLoop env g selfK selfId hist st rest
      else do
        let r ← (match p with
          | .ref i =>
              if i ∈ hist then do
                let k ← keyOf env p
                .ok (st, k)
              else g st p (selfId :: hist)
          | t => g st t (selfId :: hist))
        let st := r.1
        let nk := r.2
        let selfIdent := (heapGet st selfK).ident
        let nIdent := (heapGet st nk).ident
        let st := heapMod st nk fun n =>
          { n with interfacedBy := identInsert n.interfacedBy selfIdent }
        let st := heapMod st selfK fun s => { s with interfaces := identInsert s.interfaces nIdent }
        modprocsLoop env g selfK selfId hist st rest

/-- Component loop of TypeNode.__init__ over the local variables: only
type/class variables count, a "*" prototype is skipped, a self prototype
resolves to the node itself, a hist hit to the in-flight node; then the
node's visibility is overwritten from the prototype entity and the dual
comp_of/comp_types label maps are extended with the variable name. -/
def typeVarsLoop (env : EEnv) (g : GetFn) (selfK : RKey) (selfId : String)
    (hist : List String) : RegState → List LVar → Except RErr RegState
  | st, [] => .ok st
  | st, var :: rest =>
      if ¬ (var.vartype = "type" ∨ var.vartype = "class") then
        typeVarsLoop env g selfK selfId hist st rest
      else if var.proto1 = Target.str "*" then typeVarsLoop env g selfK selfId hist st rest
      else do
        let r ← (
          if var.proto1 = Target.ref selfId then .ok (st, selfK)
          else match var.proto1 with
            | .ref i =>
                if i ∈ hist then do
                  let k ← keyOf env var.proto1
                  .ok (st, k)
                else g st var.proto1 (selfId :: hist)
            | t => g st t (selfId :: hist))
        let st := r.1
        let nk := r.2
        let st := heapMod st nk fun n => { n with visible := targetVisible env true var.proto1 }
        let selfIdent := (heapGet st selfK).ident
        let nIdent := (heapGet st nk).ident
        let st := heapMod st nk fun n => { n with compOf := labelAdd n.compOf selfIdent var.name }
        let st := heapMod st selfK fun s =>
          { s with compTypes := labelAdd s.compTypes nIdent var.name }
        typeVarsLoop env g selfK selfId hist st rest

/-- Dependency loop of FileNode.__init__ for one contained program unit: for
dep in mod.deplist, resolve the source file at the root of the dependency's
hierarchy, skipping self-dependencies, with the hist shortcut; then
n.afferent.add(self); self.efferent.add(n) on the set-valued fields. -/
def fileDepsLoop (env : EEnv) (g : GetFn) (selfK : RKey) (selfId : String)
    (hist : List String) : RegState → List String → Except RErr RegState
  | st, [] => .ok st
  | st, dep :: rest => do
      let h := (env dep).hierRoot
      if h = selfId then fileDepsLoop env g selfK selfId hist st rest
      else do
        let r ← (
          if h ∈ hist then do
            let k ← keyOf env (.ref h)
            .ok (st, k)
          else g st (.ref h) (selfId :: hist))
        let st := r.1
        let nk := r.2
        let selfIdent := (heapGet st selfK).ident
        let nIdent := (heapGet st nk).ident
        let st := heapMod st nk fun n =>
          { n with afferentFiles := identInsert n.afferentFiles selfIdent }
        let st := heapMod st selfK fun s =>
          { s with efferentFiles := identInsert s.efferentFiles nIdent }
        fileDepsLoop env g selfK selfId hist st rest

/-- Outer loop of FileNode.__init__ over the program units defined in the
file (itertools.chain over modules, submodules, functions, subroutines,
programs, blockdata). -/
def fileUnitsLoop (env : EEnv) (g : GetFn) (selfK : RKey) (selfId : String)
    (hist : List String) : RegState → List String → Except RErr RegState
  | st, [] => .ok st
  | st, u :: rest => do
      let st ← fileDepsLoop env g selfK selfId hist st (env u).deplist
      fileUnitsLoop env g selfK selfId hist st rest

/-- Constructor body NodeType(obj, self, hist) for an internal entity: first
the BaseNode attributes (the node object is allocated in the heap so that
related constructors can mutate it through hist), then the kind-specific
relation loops. The resulting state does not yet contain the membership
entry; register() adds that after the constructor returns. -/
def constructRef (env : EEnv) (g : GetFn) (k : RKey) (id : String)
    (hist : List String) (st : RegState) : Except RErr RegState :=
  let e := env id
  match e.kind with
  | .module => do
      let st := heapSet st k (baseNodeInt e)
      modUsesLoop g k st e.uses
  | .blockdata => do
      let st := heapSet st k (baseNodeInt e)
      plainUsesLoop g k st e.uses
  | .submodule => do
      -- SubmodNode runs the full ModNode body first (without hist), then
      -- resolves its ancestor; del self.used_by is not observable through
      -- any relation recorded here
      let st := heapSet st k (baseNodeInt e)
      let st ← modUsesLoop g k st e.uses
      let anc := match e.parentSubmodule with
        | some p => p
        | none => e.ancestorModule
      let r ← g st anc []
      let st := r.1
      let ak := r.2
      let selfIdent := (heapGet st k).ident
      let st := heapMod st k fun s => { s with ancestor := some ak }
      let st := heapMod st ak fun a =>
        { a with children := identInsert a.children selfIdent }
      let st := heapMod st k fun s => { s with efferent := s.efferent + 1 }
      let st := heapMod st ak fun a => { a with afferent := a.afferent + 1 }
      .ok st
  | .typ => do
      let st := heapSet st k (baseNodeInt e)
      if e.externalUrl then
        -- external project: stop following the chain
        .ok st
      else do
        let st ← (match e.extendsTarget with
          | none => .ok st
          | some ext => do
              let r ← (
                match ext with
                | .ref i =>
                    if i ∈ hist then do
                      let ak ← keyOf env ext
                      .ok (st, ak)
                    else g st ext (id :: hist)
                | t => g st t (id :: hist))
              let st := r.1
              let ak := r.2
              let selfIdent := (heapGet st k).ident
              let st := heapMod st k fun s => { s with ancestor := some ak }
              let st := heapMod st ak fun a =>
                { a with children := identInsert a.children selfIdent }
              let st := heapMod st ak fun a =>
                { a with visible := targetVisible env true ext }
              .ok st)
        typeVarsLoop env g k id hist st e.localVariables
  | .proc => do
      let st := heapSet st k { baseNodeInt e with proctype := e.proctype }
      let st ← plainUsesLoop g k st e.uses
      let st ← procCallsLoop env g k id hist st e.calls
      if pyLower e.proctype ≠ "interface" then .ok st
      else do
        let st ← modprocsLoop env g k id hist st e.modprocs
        match e.ifaceModule with
        | none => .ok st
        | some m =>
            if targetVisible env true m = false then .ok st
            else do
              let r ← (match m with
                | .ref i =>
                    if i ∈ hist then do
                      let mk ← keyOf env m
                      .ok (st, mk)
                    else g st m (id :: hist)
                | t => g st t (id :: hist))
              let st := r.1
              let nk := r.2
              let selfIdent := (heapGet st k).ident
              let nIdent := (heapGet st nk).ident
              let st := heapMod st nk fun n =>
                { n with interfacedBy := identInsert n.interfacedBy selfIdent }
              let st := heapMod st k fun s =>
                { s with interfaces := identInsert s.interfaces nIdent }
              .ok st
  | .program => do
      let st := heapSet st k (baseNodeInt e)
      let st ← progUsesLoop g k st e.uses
      progCallsLoop env g k st e.calls
  | .sourcefile => do
      let st := heapSet st k (baseNodeInt e)
      fileUnitsLoop env g k id hist st e.units
  | .other _ => .error (.badType "unreachable")

/-- Models GraphData.get_node(obj, hist) together with register(). The
collection membership test comes first; a missing entry runs the kind's
constructor and completes registration with collection[obj] = node. For an
External wrapper every kind constructor takes the fromstr branch of BaseNode
and returns before its relation loops. fuel bounds the recursion depth;
Python has no such bound and recurses forever where every fuel value returns
RErr.fuel. -/
def getNode (env : EEnv) (fuel : Nat) (st : RegState) (t : Target) (hist : List String) :
    Except RErr (RegState × RKey) := do
    let k ← keyOf env t
    if k ∈ st.members then .ok (st, k)
    else
      match fuel with
      | 0 => .error .fuel
      | fuel + 1 =>
        match t with
        | .str _ => .error (.badType "str")
        | .ext _ raw =>
            .ok (addMember (heapSet st k (baseFromStr raw)) k, k)
        | .ref id => do
            let st2 ← constructRef env (fun st t h => getNode env fuel st t h) k id hist st
            .ok (addMember st2 k, k)

/-! Concrete fixtures used by the claim theorems: small environments mirroring
the scenarios named in the spec. -/

/-- Bare module node with a given ident. -/
def mnode (s : String) : GNode := { ident := s, name := s }

/-- Environment in which every ident resolves to a bare node. -/
def plainEnv : GEnv := fun s => { ident := s, name := s }

/-- Root metadata with depth 2, node budget 1, warnings on. -/
def meta1 : RootMeta := { graph_maxdepth := 2, graph_maxnodes := 1, warn := true }

/-- Root metadata with depth 2, node budget 1, warnings off. -/
def metaNoWarn : RootMeta := { graph_maxdepth := 2, graph_maxnodes := 1, warn := false }

/-- Three relation-free roots sharing one metadata record. -/
def threeRoots (m : RootMeta) : List (GNode × RootMeta) :=
  [(mnode "r1", m), (mnode "r2", m), (mnode "r3", m)]

/-- Single root with hop-1 fan-out of two fresh nodes. -/
def rOver : GNode := { ident := "r", name := "r", uses := ["a", "b"] }

/-- Environment for the overflow scenario. -/
def overEnv : GEnv := fun s => if s = "r" then rOver else { ident := s, name := s }

/-- Single root using one further module. -/
def rDepth : GNode := { ident := "r", name := "r", uses := ["a"] }

/-- Environment for the depth scenario. -/
def depthEnv : GEnv := fun s => if s = "r" then rDepth else { ident := s, name := s }

/-- Root metadata with depth 0 and a roomy node budget. -/
def metaD0 : RootMeta := { graph_maxdepth := 0, graph_maxnodes := 10, warn := true }

/-- Root metadata with depth 1 and a roomy node budget. -/
def metaD1 : RootMeta := { graph_maxdepth := 1, graph_maxnodes := 10, warn := true }

/-- Module A of the mutual-use scenario: A uses B. -/
def entA : Entity := { kind := .module, eid := "A", name := "A", uses := [.ref "B"] }

/-- Module B of the mutual-use scenario: B uses A. -/
def entB : Entity := { kind := .module, eid := "B", name := "B", uses := [.ref "A"] }

/-- Environment of the mutual-use scenario. -/
def envAB : EEnv := fun s => if s = "A" then entA else if s = "B" then entB else { }

/-- Procedure that calls itself. -/
def entP : Entity :=
  { kind := .proc
    eid := "P"
    name := "P"
    proctype := "subroutine"
    calls := [.ref "P"] }

/-- Environment of the self-call scenario. -/
def envP : EEnv := fun s => if s = "P" then entP else { }

/-- Self-referential type field: component next of type T inside T. -/
def lvT : LVar := { name := "next", vartype := "type", proto1 := .ref "T" }

/-- Derived type with one field of its own type. -/
def entT : Entity :=
  { kind := .typ
    eid := "T"
    name := "T"
    localVariables := [lvT] }

/-- Environment of the self-referential-type scenario. -/
def envT2 : EEnv := fun s => if s = "T" then entT else { }

/-- Program with one string-valued use target and one string-valued call
target. -/
def entPR : Entity :=
  { kind := .program
    eid := "pr"
    name := "pr"
    uses := [.str "extmod"]
    calls := [.str "extsub"] }

/-- Environment of the program scenario. -/
def envPR : EEnv := fun s => if s = "pr" then entPR else { }

/-- Relation-free module m. -/
def entM : Entity := { kind := .module, eid := "m", name := "m" }

/-- Environment holding only module m. -/
def envM : EEnv := fun s => if s = "m" then entM else { }

/-- Registry state after registering module m. -/
def stM : RegState :=
  { members := [.int .modules "m"]
    heap := [(.int .modules "m", { ident := "none~m", name := "m" })] }

/-- Family of environments holding one program whose use and call targets are
all plain strings. -/
def progEnv (pid : String) (ss cs : List String) : EEnv := fun s =>
  if s = pid then
    { kind := .program, eid := pid, name := pid, uses := ss.map .str, calls := cs.map .str }
  else { }

/-! Helper lemmas shared by the claim theorems. -/

theorem charListLe_cons_elim {x y : Char} {xs ys : List Char}
    (h : charListLe (x :: xs) (y :: ys) = true) :
    x.toNat < y.toNat ∨ (x.toNat = y.toNat ∧ charListLe xs ys = true) := by
  simp only [charListLe] at h
  split at h
  · left; assumption
  · split at h
    · simp at h
    · right; exact ⟨by omega, h⟩

theorem charListLe_cons_of_lt {x y : Char} {xs ys : List Char} (h : x.toNat < y.toNat) :
    charListLe (x :: xs) (y :: ys) = true := by
  simp only [charListLe]
  rw [if_pos h]

theorem charListLe_cons_of_eq {x y : Char} {xs ys : List Char} (hxy : x.toNat = y.toNat)
    (h : charListLe xs ys = true) : charListLe (x :: xs) (y :: ys) = true := by
  simp only [charListLe]
  rw [if_neg (by omega), if_neg (by omega)]
  exact h

theorem charListLe_total (a b : List Char) : charListLe a b = true ∨ charListLe b a = true := by
  induction a generalizing b with
  | nil => left; rfl
  | cons x xs ih =>
    cases b with
    | nil => right; rfl
    | cons y ys =>
      by_cases h1 : x.toNat < y.toNat
      · exact Or.inl (charListLe_cons_of_lt h1)
      · by_cases h2 : y.toNat < x.toNat
        · exact Or.inr (charListLe_cons_of_lt h2)
        · rcases ih ys with h | h
          · exact Or.inl (charListLe_cons_of_eq (by omega) h)
          · exact Or.inr (charListLe_cons_of_eq (by omega) h)

theorem charListLe_trans {a b c : List Char} (h1 : charListLe a b = true)
    (h2 : charListLe b c = true) : charListLe a c = true := by
  induction a generalizing b c with
  | nil => rfl
  | cons x xs ih =>
    cases b with
    | nil => simp [charListLe] at h1
    | cons y ys =>
      cases c with
      | nil => simp [charListLe] at h2
      | cons z zs =>
        rcases charListLe_cons_elim h1 with hl | ⟨he, hr⟩ <;>
          rcases charListLe_cons_elim h2 with hl2 | ⟨he2, hr2⟩
        · exact charListLe_cons_of_lt (by omega)
        · exact charListLe_cons_of_lt (by omega)
        · exact charListLe_cons_of_lt (by omega)
        · exact charListLe_cons_of_eq (by omega) (ih hr hr2)

theorem char_toNat_inj {x y : Char} (h : x.toNat = y.toNat) : x = y := by
  have := Char.ofNat_toNat x
  rw [h, Char.ofNat_toNat y] at this
  exact this.symm

theorem charListLe_antisymm {a b : List Char} (h1 : charListLe a b = true)
    (h2 : charListLe b a = true) : a = b := by
  induction a generalizing b with
  | nil =>
    cases b with
    | nil => rfl
    | cons y ys => simp [charListLe] at h2
  | cons x xs ih =>
    cases b with
    | nil => simp [charListLe] at h1
    | cons y ys =>
      rcases charListLe_cons_elim h1 with hl | ⟨he, hr⟩ <;>
        rcases charListLe_cons_elim h2 with hl2 | ⟨he2, hr2⟩
      · omega
      · omega
      · omega
      · rw [char_toNat_inj he, ih hr hr2]

theorem pyStrLe_total (a b : String) : pyStrLe a b = true ∨ pyStrLe b a = true :=
  charListLe_total a.data b.data

theorem pyStrLe_trans {a b c : String} (h1 : pyStrLe a b = true) (h2 : pyStrLe b c = true) :
    pyStrLe a c = true := charListLe_trans h1 h2

theorem pyStrLe_antisymm {a b : String} (h1 : pyStrLe a b = true) (h2 : pyStrLe b a = true) :
    a = b := by
  cases a; cases b
  exact congrArg String.mk (charListLe_antisymm h1 h2)


theorem exbind_ok {ε α β : Type} {x : Except ε α} {f : α → Except ε β} {b : β}
    (h : x >>= f = .ok b) : ∃ a, x = .ok a ∧ f a = .ok b := by
  cases x with
  | ok a => exact ⟨a, rfl, h⟩
  | error e => exact absurd h (by simp [Bind.bind, Except.bind])

theorem addMember_mem (st : RegState) (k : RKey) : k ∈ (addMember st k).members := by
  unfold addMember
  split
  · assumption
  · simp

theorem nodeInsert_length_le (l : List GNode) (n : GNode) :
    (nodeInsert l n).length ≤ l.length + 1 := by
  unfold nodeInsert
  split
  · omega
  · simp

theorem nodeUnion_length_le (l : List GNode) (ns : List GNode) :
    (nodeUnion l ns).length ≤ l.length + ns.length := by
  induction ns generalizing l with
  | nil => simp [nodeUnion]
  | cons x xs ih =>
    have h1 := nodeInsert_length_le l x
    have h2 := ih (nodeInsert l x)
    simp only [nodeUnion, List.foldl_cons, List.length_cons] at h2 ⊢
    omega

theorem add_to_graph_over {cfg : Cfg} {st : GraphState} {nodes : List GNode}
    {edges : List Edge} {nesting : Nat}
    (h : nodes.length + st.added.length > cfg.maxNodes) :
    add_to_graph cfg st nodes edges nesting =
      (false,
        { (if nesting < 2 then { st with hopNodes := nodes, hopEdges := edges } else st) with
          truncated := (nesting : Int) }) := by
  unfold add_to_graph
  rw [if_pos h]

theorem add_to_graph_fit {cfg : Cfg} {st : GraphState} {nodes : List GNode}
    {edges : List Edge} {nesting : Nat}
    (h : ¬ nodes.length + st.added.length > cfg.maxNodes) :
    add_to_graph cfg st nodes edges nesting =
      (true,
        { st with
          dotNodes := st.dotNodes ++ (sortNodes nodes).map (·.ident)
          dotEdges := st.dotEdges ++ edges
          added := nodeUnion st.added nodes
          admitLog := st.admitLog ++ [(nesting, nodes.length)] }) := by
  unfold add_to_graph
  rw [if_neg h]

theorem add_to_graph_eq (cfg : Cfg) (st : GraphState) (nodes : List GNode)
    (edges : List Edge) (nesting : Nat) :
    add_to_graph cfg st nodes edges nesting =
      if nodes.length + st.added.length > cfg.maxNodes then
        (false, rejectState st nodes edges nesting)
      else (true, admitState st nodes edges nesting) := by
  unfold add_to_graph rejectState admitState
  rfl

theorem add_nodes_gas_over {env : GEnv} {v : Variant} {cfg : Cfg} {gas : Nat}
    {st : GraphState} {nodes : List GNode} {nesting : Nat}
    (hover : (hopAccum env v st.added nodes).1.length + st.added.length > cfg.maxNodes) :
    add_nodes_gas env v cfg gas st nodes nesting =
      rejectState st (hopAccum env v st.added nodes).1 (hopAccum env v st.added nodes).2
        nesting := by
  rw [add_nodes_gas.eq_def, add_to_graph_eq, if_pos hover]

theorem add_nodes_gas_fit_succ {env : GEnv} {v : Variant} {cfg : Cfg} {gas : Nat}
    {st : GraphState} {nodes : List GNode} {nesting : Nat}
    (hfit : ¬ (hopAccum env v st.added nodes).1.length + st.added.length > cfg.maxNodes) :
    add_nodes_gas env v cfg (gas + 1) st nodes nesting =
      (if v.shouldAddNestedNodes = true then
        if (hopAccum env v st.added nodes).1.length = 0 then
          admitState st (hopAccum env v st.added nodes).1
            (hopAccum env v st.added nodes).2 nesting
        else if nesting < cfg.maxNesting then
          add_nodes_gas env v cfg gas
            (admitState st (hopAccum env v st.added nodes).1
              (hopAccum env v st.added nodes).2 nesting)
            (hopAccum env v st.added nodes).1 (nesting + 1)
        else
          { admitState st (hopAccum env v st.added nodes).1
              (hopAccum env v st.added nodes).2 nesting with
            truncated := (nesting : Int) }
      else
        admitState st (hopAccum env v st.added nodes).1
          (hopAccum env v st.added nodes).2 nesting) := by
  conv_lhs => rw [add_nodes_gas.eq_def, add_to_graph_eq, if_neg hfit]

theorem add_nodes_gas_fit_zero {env : GEnv} {v : Variant} {cfg : Cfg}
    {st : GraphState} {nodes : List GNode} {nesting : Nat}
    (hfit : ¬ (hopAccum env v st.added nodes).1.length + st.added.length > cfg.maxNodes) :
    add_nodes_gas env v cfg 0 st nodes nesting =
      (if v.shouldAddNestedNodes = true then
        if (hopAccum env v st.added nodes).1.length = 0 then
          admitState st (hopAccum env v st.added nodes).1
            (hopAccum env v st.added nodes).2 nesting
        else if nesting < cfg.maxNesting then
          admitState st (hopAccum env v st.added nodes).1
            (hopAccum env v st.added nodes).2 nesting
        else
          { admitState st (hopAccum env v st.added nodes).1
              (hopAccum env v st.added nodes).2 nesting with
            truncated := (nesting : Int) }
      else
        admitState st (hopAccum env v st.added nodes).1
          (hopAccum env v st.added nodes).2 nesting) := by
  conv_lhs => rw [add_nodes_gas.eq_def, add_to_graph_eq, if_neg hfit]

/-- Unfolding equation for add_nodes mirroring the recursion of the source:
process the hop, stop if not admitted, then for transitively-expanding
variants either recurse into the next hop while below the depth limit or
mark truncation at this hop. -/
theorem add_nodes_unfold (env : GEnv) (v : Variant) (cfg : Cfg) (st : GraphState)
    (nodes : List GNode) (nesting : Nat) :
    add_nodes env v cfg st nodes nesting =
      (let hop := hopAccum env v st.added nodes
       let res := add_to_graph cfg st hop.1 hop.2 nesting
       if res.1 = false then res.2
       else if v.shouldAddNestedNodes then
         if hop.1.length = 0 then res.2
         else if nesting < cfg.maxNesting then add_nodes env v cfg res.2 hop.1 (nesting + 1)
         else { res.2 with truncated := (nesting : Int) }
       else res.2) := by
  show add_nodes_gas env v cfg (cfg.maxNesting - nesting) st nodes nesting = _
  by_cases hover :
      (hopAccum env v st.added nodes).1.length + st.added.length > cfg.maxNodes
  · rw [add_nodes_gas_over hover]
    simp [add_to_graph_eq, hover]
  · by_cases hlt : nesting < cfg.maxNesting
    · have hg : cfg.maxNesting - nesting = (cfg.maxNesting - (nesting + 1)) + 1 := by omega
      rw [hg, add_nodes_gas_fit_succ hover]
      simp [add_to_graph_eq, hover, hlt, add_nodes]
    · have hg : cfg.maxNesting - nesting = 0 := by omega
      rw [hg, add_nodes_gas_fit_zero hover]
      simp [add_to_graph_eq, hover, hlt]

theorem rejectState_added (st : GraphState) (nodes : List GNode) (edges : List Edge)
    (nesting : Nat) : (rejectState st nodes edges nesting).added = st.added := by
  unfold rejectState
  split <;> rfl

theorem rejectState_admitLog (st : GraphState) (nodes : List GNode) (edges : List Edge)
    (nesting : Nat) : (rejectState st nodes edges nesting).admitLog = st.admitLog := by
  unfold rejectState
  split <;> rfl

theorem add_nodes_gas_added_le (env : GEnv) (v : Variant) (cfg : Cfg) :
    ∀ (gas : Nat) (st : GraphState) (nodes : List GNode) (nesting : Nat),
      (add_nodes_gas env v cfg gas st nodes nesting).added.length ≤
        max cfg.maxNodes st.added.length := by
  intro gas
  induction gas with
  | zero =>
    intro st nodes nesting
    by_cases hover :
        (hopAccum env v st.added nodes).1.length + st.added.length > cfg.maxNodes
    · rw [add_nodes_gas_over hover, rejectState_added]
      exact le_max_right _ _
    · rw [add_nodes_gas_fit_zero hover]
      have hX : (admitState st (hopAccum env v st.added nodes).1
          (hopAccum env v st.added nodes).2 nesting).added.length ≤ cfg.maxNodes := by
        have := nodeUnion_length_le st.added (hopAccum env v st.added nodes).1
        simp only [admitState]
        omega
      split
      · split
        · exact le_trans hX (le_max_left _ _)
        · split
          · exact le_trans hX (le_max_left _ _)
          · exact le_trans hX (le_max_left _ _)
      · exact le_trans hX (le_max_left _ _)
  | succ gas ih =>
    intro st nodes nesting
    by_cases hover :
        (hopAccum env v st.added nodes).1.length + st.added.length > cfg.maxNodes
    · rw [add_nodes_gas_over hover, rejectState_added]
      exact le_max_right _ _
    · rw [add_nodes_gas_fit_succ hover]
      have hX : (admitState st (hopAccum env v st.added nodes).1
          (hopAccum env v st.added nodes).2 nesting).added.length ≤ cfg.maxNodes := by
        have := nodeUnion_length_le st.added (hopAccum env v st.added nodes).1
        simp only [admitState]
        omega
      split
      · split
        · exact le_trans hX (le_max_left _ _)
        · split
          · refine le_trans (ih _ _ _) ?_
            simp only [max_le_iff]
            exact ⟨le_max_left _ _, le_trans hX (le_max_left _ _)⟩
          · exact le_trans hX (le_max_left _ _)
      · exact le_trans hX (le_max_left _ _)

theorem add_nodes_gas_admitLog (env : GEnv) (v : Variant) (cfg : Cfg) :
    ∀ (gas : Nat) (st : GraphState) (nodes : List GNode) (nesting : Nat),
      nesting ≤ max 1 cfg.maxNesting →
      ∀ p ∈ (add_nodes_gas env v cfg gas st nodes nesting).admitLog,
        p ∈ st.admitLog ∨ p.1 ≤ max 1 cfg.maxNesting := by
  intro gas
  induction gas with
  | zero =>
    intro st nodes nesting hn p hp
    by_cases hover :
        (hopAccum env v st.added nodes).1.length + st.added.length > cfg.maxNodes
    · rw [add_nodes_gas_over hover, rejectState_admitLog] at hp
      exact Or.inl hp
    · rw [add_nodes_gas_fit_zero hover] at hp
      have hfin : p ∈ (admitState st (hopAccum env v st.added nodes).1
          (hopAccum env v st.added nodes).2 nesting).admitLog →
          p ∈ st.admitLog ∨ p.1 ≤ max 1 cfg.maxNesting := by
        intro hm
        simp only [admitState] at hm
        rcases List.mem_append.mp hm with hm | hm
        · exact Or.inl hm
        · right
          rw [List.mem_singleton.mp hm]
          simpa using hn
      split at hp
      · split at hp
        · exact hfin hp
        · split at hp
          · exact hfin hp
          · exact hfin hp
      · exact hfin hp
  | succ gas ih =>
    intro st nodes nesting hn p hp
    by_cases hover :
        (hopAccum env v st.added nodes).1.length + st.added.length > cfg.maxNodes
    · rw [add_nodes_gas_over hover, rejectState_admitLog] at hp
      exact Or.inl hp
    · rw [add_nodes_gas_fit_succ hover] at hp
      have hfin : p ∈ (admitState st (hopAccum env v st.added nodes).1
          (hopAccum env v st.added nodes).2 nesting).admitLog →
          p ∈ st.admitLog ∨ p.1 ≤ max 1 cfg.maxNesting := by
        intro hm
        simp only [admitState] at hm
        rcases List.mem_append.mp hm with hm | hm
        · exact Or.inl hm
        · right
          rw [List.mem_singleton.mp hm]
          simpa using hn
      split at hp
      · split at hp
        · exact hfin hp
        · split at hp
          · have hn2 : nesting + 1 ≤ max 1 cfg.maxNesting := by
              rename_i hlt
              omega
            rcases ih _ _ _ hn2 p hp with hmem | hb
            · exact hfin hmem
            · exact Or.inr hb
          · exact hfin hp
      · exact hfin hp

theorem rejectState_dotNodes (st : GraphState) (nodes : List GNode) (edges : List Edge)
    (nesting : Nat) : (rejectState st nodes edges nesting).dotNodes = st.dotNodes := by
  unfold rejectState
  split <;> rfl

/-! Claim theorems. -/

/-- Claim C1, counterexample: with three roots and max_nodes resolved to 1,
construction ends with three nodes in the added set, so the claimed bound
added-count at most max_nodes fails for root sets larger than the budget
(FortranGraph.__init__ admits every root unconditionally). -/
theorem C1_counterexample :
    (cfgOf (threeRoots meta1)).maxNodes = 1 ∧
    (buildGraph plainEnv .usesGraph (threeRoots meta1)).st.added.length = 3 ∧
    ((buildGraph plainEnv .usesGraph (threeRoots meta1)).st.added.length ≤
      (cfgOf (threeRoots meta1)).maxNodes) = False :=
  ⟨by decide, by decide, eq_false (by decide)⟩

/-- Claim C1 (amended): after construction the added set holds at most
max(max_nodes, number of admitted roots) nodes, because every hop beyond the
roots is admitted only under the budget; and hop admission is all-or-nothing:
a hop that would push the count over the budget leaves the added set and the
emitted node sequence untouched and add_to_graph reports no extension. -/
theorem C1_theorem :
    (∀ (env : GEnv) (v : Variant) (roots : List (GNode × RootMeta)) (svg : String),
      (buildGraph env v roots svg).st.added.length ≤
        max (cfgOf roots).maxNodes
          (initialState ((sortRoots roots).map (·.1))).added.length)
    ∧
    (∀ (cfg : Cfg) (st : GraphState) (nodes : List GNode) (edges : List Edge)
        (nesting : Nat),
      nodes.length + st.added.length > cfg.maxNodes →
        (add_to_graph cfg st nodes edges nesting).1 = false ∧
        (add_to_graph cfg st nodes edges nesting).2.added = st.added ∧
        (add_to_graph cfg st nodes edges nesting).2.dotNodes = st.dotNodes) := by
  constructor
  · intro env v roots svg
    exact add_nodes_gas_added_le env v (cfgOf roots) _ _ _ _
  · intro cfg st nodes edges nesting h
    rw [add_to_graph_eq, if_pos h]
    exact ⟨rfl, rejectState_added _ _ _ _, rejectState_dotNodes _ _ _ _⟩

/-- Claim C1, witness: a hop of one node against a full budget is rejected
without touching the added set. -/
theorem C1_witness :
    (add_to_graph { maxNodes := 1 } { added := [mnode "r1"] } [mnode "a"] [] 1).1 = false ∧
    (add_to_graph { maxNodes := 1 } { added := [mnode "r1"] } [mnode "a"] [] 1).2.added =
      ({ added := [mnode "r1"] } : GraphState).added ∧
    (add_to_graph { maxNodes := 1 } { added := [mnode "r1"] } [mnode "a"] [] 1).2.dotNodes =
      ({ added := [mnode "r1"] } : GraphState).dotNodes :=
  C1_theorem.2 _ _ _ _ _ (by decide)

/-- Claim C3: for a single root whose first hop alone exceeds the node budget,
the raw hop-1 nodes and edges are retained as fallback data (exactly the
overflowing hop, nothing admitted beyond the root, truncation marked at hop
1), but the string representation raises KeyError instead of rendering the
documented two-column table: the table branch subscripts the edge dicts built
by _edge with integer keys (hop_edges[0][0]), which the dicts do not have. -/
theorem C3_theorem :
    (buildGraph overEnv .usesGraph [(rOver, meta1)]).st.hopNodes =
      [overEnv "a", overEnv "b"] ∧
    (buildGraph overEnv .usesGraph [(rOver, meta1)]).st.hopEdges.length = 2 ∧
    (buildGraph overEnv .usesGraph [(rOver, meta1)]).st.added = [rOver] ∧
    (buildGraph overEnv .usesGraph [(rOver, meta1)]).st.truncated = 1 ∧
    strRepr (buildGraph overEnv .usesGraph [(rOver, meta1)]) = .error (.keyError "0") :=
  ⟨by decide, by decide, by decide, by decide, by decide⟩

/-- Claim C4, counterexample: a graph over budget with the warn flag off is
not suppressed; the suppression of over-budget (and incomplete) graphs is
gated on self.warn in __str__. -/
theorem C4_counterexample :
    (buildGraph plainEnv .usesGraph (threeRoots metaNoWarn)).st.added.length = 3 ∧
    (cfgOf (threeRoots metaNoWarn)).maxNodes = 1 ∧
    (cfgOf (threeRoots metaNoWarn)).warn = false ∧
    (strRepr (buildGraph plainEnv .usesGraph (threeRoots metaNoWarn)) = .ok "") = False :=
  ⟨by decide, by decide, by decide, eq_false (by decide)⟩

/-- Claim C4 (amended): a graph with at most one added node and no
table-fallback data stringifies to empty unconditionally; a graph over the
node budget, or one whose added set is smaller than its root list, stringifies
to empty when the warn flag is set (with warn off such graphs render). -/
theorem C4_theorem :
    (∀ g : BuiltGraph, graphAsTable g = false → g.st.added.length ≤ 1 →
      strRepr g = .ok "")
    ∧
    (∀ g : BuiltGraph, g.cfg.warn = true → g.st.added.length > g.cfg.maxNodes →
      strRepr g = .ok "")
    ∧
    (∀ g : BuiltGraph, g.cfg.warn = true → g.st.added.length < g.roots.length →
      strRepr g = .ok "") := by
  refine ⟨?_, ?_, ?_⟩
  · intro g h1 h2
    unfold strRepr
    rw [if_pos ⟨h2, h1⟩]
  · intro g hw hover
    unfold strRepr
    split
    · rfl
    · rw [if_pos ⟨hover, hw⟩]
  · intro g hw hlt
    unfold strRepr
    split
    · rfl
    · split
      · rfl
      · rw [if_pos ⟨hlt, hw⟩]

/-- Claim C4, witness: the three suppressions at concrete graphs: a singleton
graph renders empty; the three-root over-budget graph with warn on renders
empty; a hand-built graph missing a root with warn on renders empty. -/
theorem C4_witness :
    strRepr (buildGraph plainEnv .usesGraph [(mnode "r1", meta1)]) = .ok "" ∧
    strRepr (buildGraph plainEnv .usesGraph (threeRoots meta1)) = .ok "" ∧
    strRepr { roots := [mnode "a", mnode "b"], cfg := { warn := true },
              st := { added := [mnode "a"] } } = .ok "" :=
  ⟨C4_theorem.1 _ (by decide) (by decide),
   C4_theorem.2.1 _ (by decide) (by decide),
   C4_theorem.2.2 _ (by decide) (by decide)⟩

/-- Claim C6, counterexample: with graph_maxdepth 0 the first hop still runs
and admits a node at hop 1 (exceeding the configured depth 0), and the graph
is marked truncated at hop 1. -/
theorem C6_counterexample :
    (cfgOf [(rDepth, metaD0)]).maxNesting = 0 ∧
    (buildGraph depthEnv .usesGraph [(rDepth, metaD0)]).st.admitLog = [(1, 1)] ∧
    (buildGraph depthEnv .usesGraph [(rDepth, metaD0)]).st.added.length = 2 ∧
    (buildGraph depthEnv .usesGraph [(rDepth, metaD0)]).st.truncated = 1 :=
  ⟨by decide, by decide, by decide, by decide⟩

/-- Claim C6 (amended): no hop is admitted at a number exceeding
max(1, max depth) — hop 1 always runs, deeper hops respect the limit — and
for a transitively-expanding variant, admitting a non-empty hop at or beyond
the depth limit marks the graph truncated at that hop. -/
theorem C6_theorem :
    (∀ (env : GEnv) (v : Variant) (roots : List (GNode × RootMeta)) (svg : String),
      ∀ p ∈ (buildGraph env v roots svg).st.admitLog,
        p.1 ≤ max 1 (cfgOf roots).maxNesting)
    ∧
    (∀ (env : GEnv) (v : Variant) (cfg : Cfg) (st : GraphState) (nodes : List GNode)
        (nesting : Nat),
      v.shouldAddNestedNodes = true →
      cfg.maxNesting ≤ nesting →
      (add_to_graph cfg st (hopAccum env v st.added nodes).1
        (hopAccum env v st.added nodes).2 nesting).1 = true →
      0 < (hopAccum env v st.added nodes).1.length →
      (add_nodes env v cfg st nodes nesting).truncated = (nesting : Int)) := by
  constructor
  · intro env v roots svg p hp
    have h := add_nodes_gas_admitLog env v (cfgOf roots)
      ((cfgOf roots).maxNesting - 1) (initialState ((sortRoots roots).map Prod.fst))
      ((sortRoots roots).map Prod.fst) 1 (le_max_left 1 _) p hp
    rcases h with h | h
    · simp [initialState] at h
    · exact h
  · intro env v cfg st nodes nesting hnest hle hadm hlen
    rw [add_to_graph_eq] at hadm
    by_cases hover :
        (hopAccum env v st.added nodes).1.length + st.added.length > cfg.maxNodes
    · rw [if_pos hover] at hadm
      exact absurd hadm (by simp)
    · show (add_nodes_gas env v cfg (cfg.maxNesting - nesting) st nodes nesting).truncated = _
      have hg : cfg.maxNesting - nesting = 0 := by omega
      rw [hg, add_nodes_gas_fit_zero hover, if_pos hnest,
        if_neg (by omega : ¬ (hopAccum env v st.added nodes).1.length = 0),
        if_neg (by omega : ¬ nesting < cfg.maxNesting)]

/-- Claim C6, witness: the hop-number bound at the depth-0 scenario's one log
entry, and the truncation marking at a depth-1 graph whose hop 1 is non-empty
and admitted at the depth limit. -/
theorem C6_witness :
    (1, 1).1 ≤ max 1 (cfgOf [(rDepth, metaD0)]).maxNesting ∧
    (add_nodes depthEnv .usesGraph (cfgOf [(rDepth, metaD1)])
      (initialState [rDepth]) [rDepth] 1).truncated = (1 : Int) :=
  ⟨C6_theorem.1 depthEnv .usesGraph [(rDepth, metaD0)] "" (1, 1) (by decide),
   C6_theorem.2 depthEnv .usesGraph (cfgOf [(rDepth, metaD1)])
     (initialState [rDepth]) [rDepth] 1 (by decide) (by decide) (by decide) (by decide)⟩

/-- Claim C9: the seven recognised kinds each map to their collection without
error, any other kind raises BadType naming the unrecognised type, and the
error propagates through get_node to the caller. -/
theorem C9_theorem :
    getCollectionTag .module = .ok .modules ∧
    getCollectionTag .submodule = .ok .submodules ∧
    getCollectionTag .typ = .ok .types ∧
    getCollectionTag .proc = .ok .procedures ∧
    getCollectionTag .program = .ok .programs ∧
    getCollectionTag .sourcefile = .ok .sourcefiles ∧
    getCollectionTag .blockdata = .ok .blockdata ∧
    (∀ s, getCollectionTag (.other s) = .error (.badType s)) ∧
    (∀ (env : EEnv) (fuel : Nat) (st : RegState) (id : String) (hist : List String)
        (s : String),
      (env id).kind = .other s →
      getNode env fuel st (.ref id) hist = .error (.badType s)) := by
  refine ⟨rfl, rfl, rfl, rfl, rfl, rfl, rfl, fun s => rfl, ?_⟩
  intro env fuel st id hist s h
  have hk : keyOf env (.ref id) = .error (.badType s) := by
    simp only [keyOf, h]
    rfl
  unfold getNode
  rw [hk]
  rfl

/-- Claim C9, witness: a kind outside the seven recognised ones raises
BadType from classification and from get_node. -/
theorem C9_witness :
    getCollectionTag (.other "FortranNamelist") = .error (.badType "FortranNamelist") ∧
    getNode (fun _ => { kind := .other "FortranNamelist" }) 5 {} (.ref "x") [] =
      .error (.badType "FortranNamelist") :=
  ⟨C9_theorem.2.2.2.2.2.2.2.1 _,
   C9_theorem.2.2.2.2.2.2.2.2 _ 5 {} "x" [] _ rfl⟩

theorem eq_of_perm_sorted_key {α : Type} (key : α → String) (r : α → α → Prop)
    (hr : ∀ a b, r a b ↔ pyStrLe (key a) (key b) = true) :
    ∀ {l1 l2 : List α}, l1.Perm l2 → List.Sorted r l1 → List.Sorted r l2 →
      (l1.map key).Nodup → l1 = l2 := by
  intro l1
  induction l1 with
  | nil =>
    intro l2 hp _ _ _
    exact (List.Perm.eq_nil hp.symm).symm
  | cons a t1 ih =>
    intro l2 hp hs1 hs2 hnd
    cases l2 with
    | nil => exact absurd (List.Perm.eq_nil hp) (by simp)
    | cons b t2 =>
      have hab : a ∈ b :: t2 := hp.subset (List.mem_cons_self a t1)
      have hba : b ∈ a :: t1 := hp.symm.subset (List.mem_cons_self b t2)
      obtain ⟨hs1h, hs1t⟩ := List.sorted_cons.mp hs1
      obtain ⟨hs2h, hs2t⟩ := List.sorted_cons.mp hs2
      simp only [List.map_cons, List.nodup_cons] at hnd
      have hb : b = a := by
        rcases List.mem_cons.mp hba with h2 | h2
        · exact h2
        · exfalso
          have hkey : key a = key b := by
            rcases List.mem_cons.mp hab with h3 | h3
            · rw [h3]
            · exact pyStrLe_antisymm ((hr a b).mp (hs1h b h2)) ((hr b a).mp (hs2h a h3))
          have hin : key b ∈ t1.map key := List.mem_map_of_mem key h2
          rw [← hkey] at hin
          exact hnd.1 hin
      subst hb
      have hp2 : t1.Perm t2 := (List.perm_cons b).mp hp
      rw [ih hp2 hs1t hs2t hnd.2]

theorem insertionSort_eq_of_perm_key {α : Type} (key : α → String) (r : α → α → Prop)
    [DecidableRel r] (hr : ∀ a b, r a b ↔ pyStrLe (key a) (key b) = true)
    {l1 l2 : List α} (hp : l1.Perm l2) (hnd : (l1.map key).Nodup) :
    List.insertionSort r l1 = List.insertionSort r l2 := by
  haveI : IsTotal α r := ⟨fun a b => by
    rw [hr, hr]
    exact pyStrLe_total _ _⟩
  haveI : IsTrans α r := ⟨fun a b c h1 h2 => by
    rw [hr] at h1 h2 ⊢
    exact pyStrLe_trans h1 h2⟩
  apply eq_of_perm_sorted_key key r hr
  · exact (List.perm_insertionSort r l1).trans (hp.trans (List.perm_insertionSort r l2).symm)
  · exact List.sorted_insertionSort r l1
  · exact List.sorted_insertionSort r l2
  · exact (((List.perm_insertionSort r l1).map key).nodup_iff).mpr hnd

/-- Claim C7: graph construction is deterministic. Building is a pure function
of the registry and roots, so two builds from the same unmodified data agree
definitionally; the content here is order-independence and ordering: the hop
expansion is invariant under permuting the collection handed to add_nodes
(Python iterates a set there, whose order is arbitrary) because every hop is
processed through sorted(...); sortNodes produces the Node total order (by
identity key); and the whole build is invariant under permuting the root
collection. Node colour assignment is by index into the sorted hop, so it is
reproducible as well. -/
theorem C7_theorem :
    (∀ (env : GEnv) (v : Variant) (cfg : Cfg) (st : GraphState)
        (nodes1 nodes2 : List GNode) (nesting : Nat),
      nodes1.Perm nodes2 → (nodes1.map (fun n => n.ident)).Nodup →
      add_nodes env v cfg st nodes1 nesting = add_nodes env v cfg st nodes2 nesting)
    ∧ (∀ nodes : List GNode, List.Sorted nodeLe (sortNodes nodes))
    ∧ (∀ (env : GEnv) (v : Variant) (svg : String)
        (roots1 roots2 : List (GNode × RootMeta)),
      roots1.Perm roots2 → (roots1.map (fun p => p.1.ident)).Nodup →
      buildGraph env v roots1 svg = buildGraph env v roots2 svg) := by
  refine ⟨?_, ?_, ?_⟩
  · intro env v cfg st nodes1 nodes2 nesting hp hnd
    have hs : sortNodes nodes1 = sortNodes nodes2 := by
      unfold sortNodes
      exact insertionSort_eq_of_perm_key (fun n : GNode => n.ident) nodeLe
        (fun a b => Iff.rfl) hp hnd
    have hl : nodes1.length = nodes2.length := hp.length_eq
    have hh : hopAccum env v st.added nodes1 = hopAccum env v st.added nodes2 := by
      unfold hopAccum
      rw [hs, hl]
    show add_nodes_gas env v cfg (cfg.maxNesting - nesting) st nodes1 nesting =
      add_nodes_gas env v cfg (cfg.maxNesting - nesting) st nodes2 nesting
    rw [add_nodes_gas.eq_def, add_nodes_gas.eq_def, hh]
  · intro nodes
    haveI : IsTotal GNode nodeLe := ⟨fun a b => pyStrLe_total _ _⟩
    haveI : IsTrans GNode nodeLe := ⟨fun _ _ _ h1 h2 => pyStrLe_trans h1 h2⟩
    exact List.sorted_insertionSort nodeLe nodes
  · intro env v svg roots1 roots2 hp hnd
    have hs : sortRoots roots1 = sortRoots roots2 := by
      unfold sortRoots
      exact insertionSort_eq_of_perm_key (fun p : GNode × RootMeta => p.1.ident) _
        (fun a b => Iff.rfl) hp hnd
    unfold buildGraph cfgOf
    rw [hs]

/-- Claim C7, witness: hop expansion and whole builds at two orderings of the
same two-node collection coincide. -/
theorem C7_witness :
    add_nodes plainEnv .usesGraph {} (initialState []) [mnode "x", mnode "y"] 1 =
      add_nodes plainEnv .usesGraph {} (initialState []) [mnode "y", mnode "x"] 1 ∧
    buildGraph plainEnv .usesGraph [(mnode "x", meta1), (mnode "y", meta1)] =
      buildGraph plainEnv .usesGraph [(mnode "y", meta1), (mnode "x", meta1)] :=
  ⟨C7_theorem.1 plainEnv .usesGraph {} (initialState []) _ _ 1
      (List.Perm.swap (mnode "y") (mnode "x") []) (by decide),
   C7_theorem.2.2 plainEnv .usesGraph "" _ _
      (List.Perm.swap (mnode "y", meta1) (mnode "x", meta1) []) (by decide)⟩

/-- Claim C10: in a called-by graph a Program node contributes no hop nodes
and no edges (CalledByGraph._add_node returns immediately for ProgNode), so a
called-by graph rooted solely at a program holds only that root, emits no
edges, and stringifies to empty. -/
theorem C10_theorem :
    (∀ (env : GEnv) (added hopN : List GNode) (hopE : List Edge) (n : GNode)
        (c : Colour),
      n.isProg = true → addNode env .calledByGraph added hopN hopE n c = (hopN, hopE))
    ∧ (∀ (env : GEnv) (p : GNode) (m : RootMeta) (svg : String), p.isProg = true →
      (buildGraph env .calledByGraph [(p, m)] svg).st.added = [p] ∧
      (buildGraph env .calledByGraph [(p, m)] svg).st.dotEdges = [] ∧
      (buildGraph env .calledByGraph [(p, m)] svg).st.hopNodes = [] ∧
      strRepr (buildGraph env .calledByGraph [(p, m)] svg) = .ok "") := by
  have hstep : ∀ (env : GEnv) (added hopN : List GNode) (hopE : List Edge) (n : GNode)
      (c : Colour), n.isProg = true →
      addNode env .calledByGraph added hopN hopE n c = (hopN, hopE) := by
    intro env added hopN hopE n c h
    simp [addNode, h]
  refine ⟨hstep, ?_⟩
  intro env p m svg h
  have hsort : sortRoots [(p, m)] = [(p, m)] := by
    simp [sortRoots, List.insertionSort, List.orderedInsert]
  have hinit : initialState [p] = { added := [p], dotNodes := [p.ident] } := by
    simp [initialState, nodeInsert, nodeMem]
  have hhop : hopAccum env .calledByGraph [p] [p] = ([], []) := by
    simp [hopAccum, sortNodes, List.insertionSort, List.orderedInsert, hstep env [p] _ _ p _ h]
  have hfit : ¬ (hopAccum env .calledByGraph
      ({ added := [p], dotNodes := [p.ident] } : GraphState).added [p]).1.length +
      ({ added := [p], dotNodes := [p.ident] } : GraphState).added.length >
      (cfgOf [(p, m)]).maxNodes := by
    simp only [hhop]
    have : 1 ≤ (cfgOf [(p, m)]).maxNodes := by
      simp [cfgOf, hsort]
    simp
    omega
  have hst : (buildGraph env .calledByGraph [(p, m)] svg).st =
      admitState { added := [p], dotNodes := [p.ident] } [] [] 1 := by
    show add_nodes env .calledByGraph (cfgOf [(p, m)])
      (initialState ((sortRoots [(p, m)]).map (·.1))) ((sortRoots [(p, m)]).map (·.1)) 1 = _
    rw [hsort]
    show add_nodes env .calledByGraph (cfgOf [(p, m)]) (initialState [p]) [p] 1 = _
    rw [hinit]
    show add_nodes_gas env .calledByGraph (cfgOf [(p, m)])
      ((cfgOf [(p, m)]).maxNesting - 1) { added := [p], dotNodes := [p.ident] } [p] 1 = _
    cases hgas : (cfgOf [(p, m)]).maxNesting - 1 with
    | zero =>
        rw [add_nodes_gas_fit_zero hfit]
        simp [hhop]
    | succ g =>
        rw [add_nodes_gas_fit_succ hfit]
        simp [hhop]
  have hadded : (buildGraph env .calledByGraph [(p, m)] svg).st.added = [p] := by
    rw [hst]
    simp [admitState, nodeUnion]
  refine ⟨hadded, ?_, ?_, ?_⟩
  · rw [hst]
    simp [admitState]
  · rw [hst]
    simp [admitState]
  · unfold strRepr
    rw [if_pos ?_]
    constructor
    · rw [hadded]
      simp
    · unfold graphAsTable
      rw [hst]
      have hroots : (buildGraph env .calledByGraph [(p, m)] svg).roots = [p] := by
        show (sortRoots [(p, m)]).map (·.1) = [p]
        rw [hsort]
        rfl
      simp [admitState, hroots]

/-- Claim C10, witness: a concrete called-by graph rooted at one program. -/
theorem C10_witness :
    (buildGraph plainEnv .calledByGraph
      [({ ident := "prog", name := "prog", isProg := true }, meta1)]).st.added =
      [{ ident := "prog", name := "prog", isProg := true }] ∧
    strRepr (buildGraph plainEnv .calledByGraph
      [({ ident := "prog", name := "prog", isProg := true }, meta1)]) = .ok "" :=
  ⟨(C10_theorem.2 plainEnv { ident := "prog", name := "prog", isProg := true }
      meta1 "" rfl).1,
   (C10_theorem.2 plainEnv { ident := "prog", name := "prog", isProg := true }
      meta1 "" rfl).2.2.2⟩

/-! Registry helper lemmas. -/

theorem heapSet_members (st : RegState) (k : RKey) (n : RNode) :
    (heapSet st k n).members = st.members := by
  unfold heapSet
  split <;> rfl

theorem heapMod_members (st : RegState) (k : RKey) (f : RNode → RNode) :
    (heapMod st k f).members = st.members := heapSet_members _ _ _

theorem addMember_heap (st : RegState) (k : RKey) : (addMember st k).heap = st.heap := by
  unfold addMember
  split <;> rfl

theorem heapGet_addMember (st : RegState) (k k2 : RKey) :
    heapGet (addMember st k) k2 = heapGet st k2 := by
  unfold heapGet
  rw [addMember_heap]

theorem addMember_members_sub (st : RegState) (k : RKey) :
    st.members ⊆ (addMember st k).members := by
  unfold addMember
  split
  · exact fun _ h => h
  · intro x hx
    simp [List.mem_append]
    exact Or.inl hx

theorem find_map_set (h : List (RKey × RNode)) (k : RKey) (n : RNode) :
    ((h.map fun p => if p.1 == k then (k, n) else p).find? fun p => p.1 == k) =
      if h.any fun p => p.1 == k then some (k, n) else Option.none := by
  induction h with
  | nil => rfl
  | cons x xs ih =>
    by_cases hx : x.1 == k
    · simp [List.find?, hx]
    · simp only [List.map_cons, List.any_cons, hx, Bool.false_or]
      rw [List.find?_cons_of_neg _ (by simp [hx]), ih]

theorem find_append_one (h : List (RKey × RNode)) (k : RKey) (n : RNode)
    (hn : (h.any fun p => p.1 == k) = false) :
    ((h ++ [(k, n)]).find? fun p => p.1 == k) = some (k, n) := by
  induction h with
  | nil => simp [List.find?]
  | cons x xs ih =>
    simp only [List.any_cons, Bool.or_eq_false_iff] at hn
    rw [List.cons_append, List.find?_cons_of_neg _ (by simp [hn.1]), ih hn.2]

theorem heapGet_heapSet_self (st : RegState) (k : RKey) (n : RNode) :
    heapGet (heapSet st k n) k = n := by
  unfold heapGet heapSet
  by_cases hany : st.heap.any fun p => p.1 == k
  · rw [if_pos hany]
    simp only [find_map_set, hany, if_pos]
    rfl
  · rw [if_neg hany]
    simp only []
    rw [find_append_one st.heap k n (Bool.eq_false_iff.mpr hany)]
    rfl

theorem find_map_set_other (h : List (RKey × RNode)) (k k2 : RKey) (n : RNode)
    (hk : k2 ≠ k) :
    ((h.map fun p => if p.1 == k then (k, n) else p).find? fun p => p.1 == k2) =
      h.find? fun p => p.1 == k2 := by
  have hkk2 : (k == k2) = false := beq_eq_false_iff_ne.mpr fun hc => hk (Eq.symm hc)
  induction h with
  | nil => rfl
  | cons x xs ih =>
    simp only [List.map_cons]
    by_cases hx : (x.1 == k) = true
    · have hxk : x.1 = k := by simpa using hx
      have hx2 : (x.1 == k2) = false := by
        rw [hxk]
        exact hkk2
      rw [if_pos hx]
      simp only [List.find?, hkk2, hx2]
      exact ih
    · rw [if_neg hx]
      by_cases hx2 : (x.1 == k2) = true
      · simp only [List.find?, hx2]
      · have hx2' : (x.1 == k2) = false := Bool.eq_false_iff.mpr hx2
        simp only [List.find?, hx2']
        exact ih

theorem heapGet_heapSet_other (st : RegState) (k k2 : RKey) (n : RNode) (hk : k2 ≠ k) :
    heapGet (heapSet st k n) k2 = heapGet st k2 := by
  unfold heapGet heapSet
  by_cases hany : st.heap.any fun p => p.1 == k
  · rw [if_pos hany]
    simp only [find_map_set_other st.heap k k2 n hk]
  · rw [if_neg hany]
    simp only [List.find?_append]
    have hone : (([(k, n)] : List (RKey × RNode)).find? fun p => p.1 == k2) = Option.none := by
      have hkk2 : (k == k2) = false := beq_eq_false_iff_ne.mpr fun hc => hk (Eq.symm hc)
      simp only [List.find?, hkk2]
    rw [hone]
    cases st.heap.find? fun p => p.1 == k2 <;> rfl

theorem heapGet_heapMod_self (st : RegState) (k : RKey) (f : RNode → RNode) :
    heapGet (heapMod st k f) k = f (heapGet st k) := heapGet_heapSet_self _ _ _

theorem heapGet_heapMod_other (st : RegState) (k k2 : RKey) (f : RNode → RNode)
    (hk : k2 ≠ k) : heapGet (heapMod st k f) k2 = heapGet st k2 :=
  heapGet_heapSet_other _ _ _ _ hk

theorem getNode_ok_sound {env : EEnv} {fuel : Nat} {st st2 : RegState} {t : Target}
    {hist : List String} {k : RKey}
    (h : getNode env fuel st t hist = .ok (st2, k)) :
    keyOf env t = .ok k ∧ k ∈ st2.members := by
  unfold getNode at h
  obtain ⟨k1, hk1, hcont⟩ := exbind_ok h
  by_cases hm : k1 ∈ st.members
  · rw [if_pos hm] at hcont
    simp only [Except.ok.injEq, Prod.mk.injEq] at hcont
    obtain ⟨hst, hkk⟩ := hcont
    subst hst
    subst hkk
    exact ⟨hk1, hm⟩
  · rw [if_neg hm] at hcont
    cases fuel with
    | zero => exact absurd hcont (by simp)
    | succ fuel =>
      cases t with
      | str s => exact absurd hcont (by simp)
      | ext kk raw =>
          simp only [Except.ok.injEq, Prod.mk.injEq] at hcont
          obtain ⟨hst, hkk⟩ := hcont
          subst hst
          subst hkk
          exact ⟨hk1, addMember_mem _ _⟩
      | ref id =>
          obtain ⟨st3, _, heq⟩ := exbind_ok hcont
          simp only [Except.ok.injEq, Prod.mk.injEq] at heq
          obtain ⟨hst, hkk⟩ := heq
          subst hst
          subst hkk
          exact ⟨hk1, addMember_mem _ _⟩

/-- Claim C5: looking the same entity up twice returns the same node. A
successful get_node leaves the entity's key in its collection, so any later
lookup of the same entity short-circuits on the membership test, returning
the stored node unchanged without constructing anything (same state, same
reference), irrespective of the hist argument and of the recursion budget of
the second call. -/
theorem C5_theorem :
    ∀ (env : EEnv) (fuel1 fuel2 : Nat) (st st2 : RegState) (t : Target)
      (hist1 hist2 : List String) (k : RKey),
      getNode env fuel1 st t hist1 = .ok (st2, k) →
      getNode env fuel2 st2 t hist2 = .ok (st2, k) := by
  intro env fuel1 fuel2 st st2 t hist1 hist2 k h
  obtain ⟨hkey, hmem⟩ := getNode_ok_sound h
  unfold getNode
  rw [hkey]
  simp [Bind.bind, Except.bind, hmem]

/-- Claim C5, witness: registering module m and looking it up again (with no
recursion budget and a different hist) returns the same state and key. -/
theorem C5_witness :
    getNode envM 0 stM (.ref "m") ["h"] = .ok (stM, .int .modules "m") :=
  C5_theorem envM 1 0 {} stM (.ref "m") [] ["h"] _ (by decide)

theorem modUsesLoop_err {g : GetFn} {selfK : RKey} {st : RegState} {u : Target}
    {rest : List Target} {e : RErr} (h : g st u [] = .error e) :
    modUsesLoop g selfK st (u :: rest) = .error e := by
  unfold modUsesLoop
  rw [h]
  rfl

theorem envAB_stuck : ∀ (fuel : Nat) (st : RegState),
    RKey.int .modules "A" ∉ st.members → RKey.int .modules "B" ∉ st.members →
    getNode envAB fuel st (.ref "A") [] = .error .fuel ∧
    getNode envAB fuel st (.ref "B") [] = .error .fuel := by
  have hkA : keyOf envAB (.ref "A") = .ok (.int .modules "A") := by decide
  have hkB : keyOf envAB (.ref "B") = .ok (.int .modules "B") := by decide
  intro fuel
  induction fuel with
  | zero =>
    intro st hA hB
    constructor
    · unfold getNode
      rw [hkA]
      simp only [Bind.bind, Except.bind]
      rw [if_neg hA]
    · unfold getNode
      rw [hkB]
      simp only [Bind.bind, Except.bind]
      rw [if_neg hB]
  | succ fuel ih =>
    intro st hA hB
    constructor
    · have ihB := (ih (heapSet st (.int .modules "A") (baseNodeInt entA))
        (by rw [heapSet_members]; exact hA) (by rw [heapSet_members]; exact hB)).2
      have hcon : constructRef envAB (fun st t h => getNode envAB fuel st t h)
          (.int .modules "A") "A" [] st = .error .fuel := by
        unfold constructRef
        simp only [envAB, entA]
        norm_num
        exact modUsesLoop_err ihB
      unfold getNode
      rw [hkA]
      simp only [Bind.bind, Except.bind]
      rw [if_neg hA]
      simp only [hcon]
    · have ihA := (ih (heapSet st (.int .modules "B") (baseNodeInt entB))
        (by rw [heapSet_members]; exact hA) (by rw [heapSet_members]; exact hB)).1
      have hcon : constructRef envAB (fun st t h => getNode envAB fuel st t h)
          (.int .modules "B") "B" [] st = .error .fuel := by
        unfold constructRef
        simp only [envAB, entB]
        norm_num
        exact modUsesLoop_err ihA
      unfold getNode
      rw [hkB]
      simp only [Bind.bind, Except.bind]
      rw [if_neg hB]
      simp only [hcon]

/-- Claim C2, counterexample: for two modules that use each other, ModNode
construction never terminates: it ignores the hist cycle guard, and a module
is registered in its collection only after its constructor returns, so the
constructors of A and B re-enter each other for ever — modelled as exhaustion
of every finite recursion budget. -/
theorem C2_counterexample :
    (envAB "A").uses = [.ref "B"] ∧
    (envAB "B").uses = [.ref "A"] ∧
    (∃ n, (getNode envAB n {} (.ref "A") []).isOk = true) = False := by
  refine ⟨by decide, by decide, ?_⟩
  apply eq_false
  rintro ⟨n, hn⟩
  rw [(envAB_stuck n {} (by decide) (by decide)).1] at hn
  simp [Except.isOk, Except.toBool] at hn

/-- Claim C2 (amended): the self-reference cases that carry a guard do
terminate with the self-reference recorded exactly once — a procedure calling
itself resolves the call to its own node (calls holds exactly its own ident),
and a derived type with a field of its own type records the single component
entry without recursing — while for modules that use each other (hist-less
ModNode construction) no finite recursion budget suffices. -/
theorem C2_theorem :
    (getNode envP 4 {} (.ref "P") []).map (fun r => (heapGet r.1 r.2).calls) =
      .ok ["none~P"] ∧
    (getNode envT2 4 {} (.ref "T") []).map (fun r => (heapGet r.1 r.2).compTypes) =
      .ok [("none~T", "next")] ∧
    (∃ n, (getNode envAB n {} (.ref "B") []).isOk = true) = False := by
  refine ⟨by decide, by decide, ?_⟩
  apply eq_false
  rintro ⟨n, hn⟩
  rw [(envAB_stuck n {} (by decide) (by decide)).2] at hn
  simp [Except.isOk, Except.toBool] at hn

theorem baseFromStr_ident (raw : String) : (baseFromStr raw).ident = extName raw := by
  unfold baseFromStr extName
  cases hyperlinkMatch raw <;> rfl

theorem getNode_ext_module (env : EEnv) (f : Nat) (st : RegState) (raw : String)
    (hist : List String) :
    getNode env (f + 1) st (.ext .module raw) hist =
      if RKey.ext .modules (extName raw) ∈ st.members then
        .ok (st, RKey.ext .modules (extName raw))
      else
        .ok (addMember (heapSet st (RKey.ext .modules (extName raw)) (baseFromStr raw))
          (RKey.ext .modules (extName raw)), RKey.ext .modules (extName raw)) := by
  unfold getNode
  have hk : keyOf env (.ext .module raw) = .ok (.ext .modules (extName raw)) := rfl
  rw [hk]
  simp only [Bind.bind, Except.bind]

theorem getNode_ext_module1 (env : EEnv) (st : RegState) (raw : String)
    (hist : List String) :
    getNode env 1 st (.ext .module raw) hist =
      if RKey.ext .modules (extName raw) ∈ st.members then
        .ok (st, RKey.ext .modules (extName raw))
      else
        .ok (addMember (heapSet st (RKey.ext .modules (extName raw)) (baseFromStr raw))
          (RKey.ext .modules (extName raw)), RKey.ext .modules (extName raw)) :=
  getNode_ext_module env 0 st raw hist

theorem progCallsLoop_skip {env : EEnv} {g : GetFn} {selfK : RKey} {st : RegState}
    {c : Target} {rest : List Target} (h : targetVisible env false c = false) :
    progCallsLoop env g selfK st (c :: rest) = progCallsLoop env g selfK st rest := by
  simp only [progCallsLoop]
  rw [if_pos h]

theorem progCallsLoop_strs (env : EEnv) (g : GetFn) (selfK : RKey) :
    ∀ (cs : List String) (st : RegState),
      progCallsLoop env g selfK st (cs.map .str) = .ok st := by
  intro cs
  induction cs with
  | nil => intro st; rfl
  | cons c cs ih =>
    intro st
    rw [List.map_cons,
      progCallsLoop_skip (show targetVisible env false (Target.str c) = false from rfl)]
    exact ih st

theorem addMember_mem_iff (st : RegState) (k k2 : RKey) :
    k2 ∈ (addMember st k).members ↔ k2 ∈ st.members ∨ k2 = k := by
  unfold addMember
  split
  · constructor
    · exact Or.inl
    · rintro (h | rfl)
      · exact h
      · assumption
  · simp [List.mem_append]

theorem progUsesLoop_strs (env : EEnv) (selfK : RKey)
    (hself : ∀ c s, selfK ≠ RKey.ext c s) :
    ∀ (ss : List String) (st : RegState),
      (∀ x, RKey.ext .modules x ∈ st.members →
        (heapGet st (RKey.ext .modules x)).ident = x) →
      ∃ st2,
        progUsesLoop (fun st t h => getNode env 1 st t h) selfK st (ss.map .str) =
          .ok st2 ∧
        (heapGet st2 selfK).uses =
          ss.foldl (fun acc s => identInsert acc (extName s)) (heapGet st selfK).uses ∧
        (heapGet st2 selfK).calls = (heapGet st selfK).calls ∧
        (∀ x, RKey.ext .modules x ∈ st2.members →
          (heapGet st2 (RKey.ext .modules x)).ident = x) ∧
        (∀ s ∈ ss, RKey.ext .modules (extName s) ∈ st2.members) ∧
        (∀ k, k ∈ st.members → k ∈ st2.members) := by
  intro ss
  induction ss with
  | nil =>
    intro st hinv
    exact ⟨st, rfl, rfl, rfl, hinv, by simp, fun _ h => h⟩
  | cons s ss ih =>
    intro st hinv
    rw [List.map_cons]
    simp only [progUsesLoop]
    rw [getNode_ext_module1]
    by_cases hmem : RKey.ext .modules (extName s) ∈ st.members
    · rw [if_pos hmem]
      simp only [Bind.bind, Except.bind]
      have hident : (heapGet st (RKey.ext .modules (extName s))).ident = extName s :=
        hinv _ hmem
      have hAself : heapGet (heapMod st (RKey.ext .modules (extName s)) fun n =>
          { n with usedBy := identInsert n.usedBy (heapGet st selfK).ident }) selfK =
          heapGet st selfK :=
        heapGet_heapMod_other _ _ _ _ (hself _ _)
      have hBself : heapGet (heapMod (heapMod st (RKey.ext .modules (extName s)) fun n =>
            { n with usedBy := identInsert n.usedBy (heapGet st selfK).ident }) selfK
            fun n => { n with uses := identInsert n.uses (heapGet st (RKey.ext .modules (extName s))).ident }) selfK =
          { heapGet st selfK with
            uses := identInsert (heapGet st selfK).uses (extName s) } := by
        rw [heapGet_heapMod_self, hAself, hident]
      have hBmem : (heapMod (heapMod st (RKey.ext .modules (extName s)) fun n =>
            { n with usedBy := identInsert n.usedBy (heapGet st selfK).ident }) selfK
            fun n => { n with uses := identInsert n.uses (heapGet st (RKey.ext .modules (extName s))).ident }).members =
          st.members := by
        rw [heapMod_members, heapMod_members]
      have hBext : ∀ y, (heapGet (heapMod (heapMod st (RKey.ext .modules (extName s))
            fun n => { n with usedBy := identInsert n.usedBy (heapGet st selfK).ident })
            selfK fun n => { n with uses := identInsert n.uses (heapGet st (RKey.ext .modules (extName s))).ident })
            (RKey.ext .modules y)).ident =
          (heapGet st (RKey.ext .modules y)).ident := by
        intro y
        rw [heapGet_heapMod_other _ _ _ _ (Ne.symm (hself .modules y))]
        by_cases hy : RKey.ext CTag.modules y = RKey.ext CTag.modules (extName s)
        · rw [hy, heapGet_heapMod_self]
        · rw [heapGet_heapMod_other _ _ _ _ hy]
      obtain ⟨st2, hl, hu, hc, hi, hm, hsub⟩ := ih
        (heapMod (heapMod st (RKey.ext .modules (extName s)) fun n =>
          { n with usedBy := identInsert n.usedBy (heapGet st selfK).ident }) selfK
          fun n => { n with uses := identInsert n.uses (heapGet st (RKey.ext .modules (extName s))).ident })
        (fun x hx => by
          rw [hBext x]
          exact hinv x (hBmem ▸ hx))
      refine ⟨st2, hl, ?_, ?_, hi, ?_, ?_⟩
      · rw [hu, hBself, List.foldl_cons]
      · rw [hc, hBself]
      · intro s2 hs2
        rcases List.mem_cons.mp hs2 with rfl | hs2
        · exact hsub _ (hBmem ▸ hmem)
        · exact hm s2 hs2
      · intro k hk
        exact hsub k (hBmem ▸ hk)
    · rw [if_neg hmem]
      simp only [Bind.bind, Except.bind]
      have hGself : heapGet (addMember (heapSet st (RKey.ext .modules (extName s))
          (baseFromStr s)) (RKey.ext .modules (extName s))) selfK = heapGet st selfK := by
        rw [heapGet_addMember, heapGet_heapSet_other _ _ _ _ (hself _ _)]
      have hGext : heapGet (addMember (heapSet st (RKey.ext .modules (extName s))
          (baseFromStr s)) (RKey.ext .modules (extName s)))
          (RKey.ext .modules (extName s)) = baseFromStr s := by
        rw [heapGet_addMember, heapGet_heapSet_self]
      have hGmem : ∀ k2, k2 ∈ (addMember (heapSet st (RKey.ext .modules (extName s))
          (baseFromStr s)) (RKey.ext .modules (extName s))).members ↔
          k2 ∈ st.members ∨ k2 = RKey.ext .modules (extName s) := by
        intro k2
        rw [addMember_mem_iff, heapSet_members]
      have hGother : ∀ y, RKey.ext CTag.modules y ≠ RKey.ext CTag.modules (extName s) →
          heapGet (addMember (heapSet st (RKey.ext .modules (extName s))
            (baseFromStr s)) (RKey.ext .modules (extName s))) (RKey.ext .modules y) =
          heapGet st (RKey.ext .modules y) := by
        intro y hy
        rw [heapGet_addMember, heapGet_heapSet_other _ _ _ _ hy]
      set stP := addMember (heapSet st (RKey.ext .modules (extName s))
        (baseFromStr s)) (RKey.ext .modules (extName s)) with hstP
      have hAself : heapGet (heapMod stP (RKey.ext .modules (extName s)) fun n =>
          { n with usedBy := identInsert n.usedBy (heapGet stP selfK).ident }) selfK =
          heapGet st selfK := by
        rw [heapGet_heapMod_other _ _ _ _ (hself _ _), hGself]
      have hBself : heapGet (heapMod (heapMod stP (RKey.ext .modules (extName s)) fun n =>
            { n with usedBy := identInsert n.usedBy (heapGet stP selfK).ident }) selfK
            fun n => { n with uses := identInsert n.uses (heapGet stP (RKey.ext .modules (extName s))).ident }) selfK =
          { heapGet st selfK with
            uses := identInsert (heapGet st selfK).uses (extName s) } := by
        rw [heapGet_heapMod_self, hAself, hGext, baseFromStr_ident]
      have hBmem : (heapMod (heapMod stP (RKey.ext .modules (extName s)) fun n =>
            { n with usedBy := identInsert n.usedBy (heapGet stP selfK).ident }) selfK
            fun n => { n with uses := identInsert n.uses (heapGet stP (RKey.ext .modules (extName s))).ident }).members =
          stP.members := by
        rw [heapMod_members, heapMod_members]
      have hBext : ∀ y, (heapGet (heapMod (heapMod stP (RKey.ext .modules (extName s))
            fun n => { n with usedBy := identInsert n.usedBy (heapGet stP selfK).ident })
            selfK fun n => { n with uses := identInsert n.uses (heapGet stP (RKey.ext .modules (extName s))).ident })
            (RKey.ext .modules y)).ident =
          (heapGet stP (RKey.ext .modules y)).ident := by
        intro y
        rw [heapGet_heapMod_other _ _ _ _ (Ne.symm (hself .modules y))]
        by_cases hy : RKey.ext CTag.modules y = RKey.ext CTag.modules (extName s)
        · rw [hy, heapGet_heapMod_self]
        · rw [heapGet_heapMod_other _ _ _ _ hy]
      obtain ⟨st2, hl, hu, hc, hi, hm, hsub⟩ := ih
        (heapMod (heapMod stP (RKey.ext .modules (extName s)) fun n =>
          { n with usedBy := identInsert n.usedBy (heapGet stP selfK).ident }) selfK
          fun n => { n with uses := identInsert n.uses (heapGet stP (RKey.ext .modules (extName s))).ident })
        (fun x hx => by
          rw [hBext x]
          rcases (hGmem _).mp (hBmem ▸ hx) with hx2 | hx2
          · by_cases hxk : RKey.ext CTag.modules x = RKey.ext CTag.modules (extName s)
            · rw [hxk, hGext, baseFromStr_ident]
              injection hxk with h1 h2
              exact h2.symm
            · rw [hGother x hxk]
              exact hinv x hx2
          · rw [hx2, hGext, baseFromStr_ident]
            injection hx2 with h1 h2
            exact h2.symm)
      refine ⟨st2, hl, ?_, ?_, hi, ?_, ?_⟩
      · rw [hu, hBself, List.foldl_cons]
      · rw [hc, hBself]
      · intro s2 hs2
        rcases List.mem_cons.mp hs2 with rfl | hs2
        · exact hsub _ (hBmem ▸ ((hGmem _).mpr (Or.inr rfl)))
        · exact hm s2 hs2
      · intro k hk
        exact hsub k (hBmem ▸ ((hGmem _).mpr (Or.inl hk)))

/-- Full run of get_node on a program whose use and call targets are all
plain strings: every string use target is wrapped as ExternalModule and lands
in uses (and in the registry), while the calls loop drops every string
target, leaving calls empty. -/
theorem progNode_run (pid : String) (ss cs : List String) :
    ∃ st2,
      getNode (progEnv pid ss cs) 2 { } (.ref pid) [] =
        .ok (addMember st2 (RKey.int .programs pid), RKey.int .programs pid) ∧
      (heapGet st2 (RKey.int .programs pid)).uses =
        ss.foldl (fun acc s => identInsert acc (extName s)) [] ∧
      (heapGet st2 (RKey.int .programs pid)).calls = [] ∧
      ∀ s ∈ ss, RKey.ext CTag.modules (extName s) ∈ st2.members := by
  have hkind : (progEnv pid ss cs pid).kind = EKind.program := by simp [progEnv]
  have husesP : (progEnv pid ss cs pid).uses = ss.map .str := by simp [progEnv]
  have hcallsP : (progEnv pid ss cs pid).calls = cs.map .str := by simp [progEnv]
  have hk : keyOf (progEnv pid ss cs) (.ref pid) = .ok (RKey.int .programs pid) := by
    simp only [keyOf, hkind]
    rfl
  obtain ⟨st2, hloop, huses, hcalls, _, hmems, _⟩ :=
    progUsesLoop_strs (progEnv pid ss cs) (RKey.int .programs pid)
      (fun c s => nofun) ss
      (heapSet { } (RKey.int .programs pid) (baseNodeInt (progEnv pid ss cs pid)))
      (fun x hx => by
        rw [heapSet_members] at hx
        exact absurd hx (List.not_mem_nil _))
  have hcr : constructRef (progEnv pid ss cs)
      (fun st t h => getNode (progEnv pid ss cs) 1 st t h)
      (RKey.int .programs pid) pid [] { } =
      (do
        let st ← progUsesLoop (fun st t h => getNode (progEnv pid ss cs) 1 st t h)
          (RKey.int .programs pid)
          (heapSet { } (RKey.int .programs pid) (baseNodeInt (progEnv pid ss cs pid)))
          (ss.map .str)
        progCallsLoop (progEnv pid ss cs)
          (fun st t h => getNode (progEnv pid ss cs) 1 st t h)
          (RKey.int .programs pid) st (cs.map .str)) := by
    simp only [constructRef, hkind, husesP, hcallsP]
  have hbase : heapGet (heapSet { } (RKey.int .programs pid)
        (baseNodeInt (progEnv pid ss cs pid))) (RKey.int .programs pid) =
      baseNodeInt (progEnv pid ss cs pid) := heapGet_heapSet_self _ _ _
  refine ⟨st2, ?_, ?_, ?_, hmems⟩
  · unfold getNode
    rw [hk]
    simp only [Bind.bind, Except.bind]
    have hnm : RKey.int .programs pid ∉ ({ } : RegState).members :=
      List.not_mem_nil _
    rw [if_neg hnm]
    show (do
        let stc ← constructRef (progEnv pid ss cs)
          (fun st t h => getNode (progEnv pid ss cs) 1 st t h)
          (RKey.int .programs pid) pid [] { }
        Except.ok (addMember stc (RKey.int .programs pid),
          RKey.int .programs pid) : Except RErr (RegState × RKey)) = _
    rw [hcr]
    simp only [Bind.bind, Except.bind]
    rw [hloop]
    simp only [Except.bind]
    rw [progCallsLoop_strs]
  · rw [huses, hbase]
    simp [baseNodeInt]
  · rw [hcalls, hbase]
    simp [baseNodeInt]

/-- C8: for a program node, string use targets are wrapped as ExternalModule
and appear in uses with the registry holding the external key; string call
targets never reach the ExternalSubmodule wrap, because getattr(c, "visible",
False) is False for a plain string, so the calls loop skips them and calls
stays empty; more generally any call target whose visible test yields false
is skipped, and an all-string call list leaves the state untouched. -/
theorem C8_theorem :
    (∀ pid ss cs, ∃ st2,
        getNode (progEnv pid ss cs) 2 { } (.ref pid) [] =
          .ok (addMember st2 (RKey.int .programs pid), RKey.int .programs pid) ∧
        (heapGet st2 (RKey.int .programs pid)).uses =
          ss.foldl (fun acc s => identInsert acc (extName s)) [] ∧
        (heapGet st2 (RKey.int .programs pid)).calls = [] ∧
        ∀ s ∈ ss, RKey.ext CTag.modules (extName s) ∈ st2.members) ∧
    (∀ env g selfK st c rest, targetVisible env false c = false →
        progCallsLoop env g selfK st (c :: rest) =
          progCallsLoop env g selfK st rest) ∧
    (∀ (env : EEnv) (g : GetFn) (selfK : RKey) (cs : List String) (st : RegState),
        progCallsLoop env g selfK st (cs.map .str) = .ok st) :=
  ⟨progNode_run,
   fun _ _ _ _ _ _ h => progCallsLoop_skip h,
   fun env g selfK cs st => progCallsLoop_strs env g selfK cs st⟩

/-- C8 counterexample to the call half of the claim: program pr has the
string call target "extsub", yet after construction its calls set is empty
and no ExternalSubmodule entry was registered, while the string use target
"extmod" does appear in uses with its external key registered. -/
theorem C8_counterexample :
    entPR.calls = [Target.str "extsub"] ∧
    Except.map (fun r : RegState × RKey =>
        ((heapGet r.1 (RKey.int .programs "pr")).uses,
         (heapGet r.1 (RKey.int .programs "pr")).calls,
         decide (RKey.ext CTag.submodules "extsub" ∈ r.1.members),
         decide (RKey.ext CTag.modules "extmod" ∈ r.1.members)))
      (getNode envPR 4 { } (.ref "pr") []) =
      .ok (["extmod"], [], false, true) :=
  ⟨rfl, rfl⟩

/-- C8 witness: the skip conjunct of C8_theorem applied to the concrete
string call target of program pr, whose visible test is false. -/
theorem C8_witness :
    targetVisible envPR false (Target.str "extsub") = false ∧
    progCallsLoop envPR (fun st t h => getNode envPR 1 st t h)
      (RKey.int .programs "pr") { } [Target.str "extsub"] =
    progCallsLoop envPR (fun st t h => getNode envPR 1 st t h)
      (RKey.int .programs "pr") { } [] :=
  ⟨rfl, C8_theorem.2.1 envPR (fun st t h => getNode envPR 1 st t h)
    (RKey.int .programs "pr") { } (Target.str "extsub") [] rfl⟩

end Ford
